import Mathlib

/-!
# GoHub: progress tracking, achievements and recommendations

A shallow embedding of the request handlers of `src/backend/routes/puzzles.js`,
`src/backend/routes/user.js`, `src/backend/routes/collections.js` and of the statistics
of `src/backend/routes/admin.js` over an explicit store (the three MongoDB
collections `Collection`, `Puzzle`, `UserProgress` as lists in natural order).

Modelling conventions
* ObjectIds are natural numbers; visitor identities (`req.ip`) and categories are strings.
* JavaScript numbers that the handlers only ever count or compare are natural numbers;
  an absent request field (`undefined`) is `none`.
* Where a handler divides and then multiplies (`averageSuccessRate`) the intermediate
  values are doubles, kept as exact fractions and rounded by `toDouble`.
* `new Date()` is a clock reading passed in by the caller (`now`).
* A handler returns the HTTP status class together with the store it leaves behind.
-/

namespace GoHub

/-! ## Data model (`src/backend/models`) -/

/-- Status class of a response: 200, 404, 400 ('Already liked'), 401, 500. -/
inductive Status where
  | ok
  | notFound
  | conflict
  | unauthorized
  | serverError
  deriving DecidableEq, Repr

/-- One entry of `Puzzle.completedBy`. -/
structure CompletionEvent where
  ip : String
  moves : Nat
  completedAt : Nat
  deriving DecidableEq, Repr

/-- The fields of `puzzleSchema` the handlers read or write. -/
structure Puzzle where
  id : Nat
  collectionId : Nat
  difficulty : Nat
  category : String
  views : Nat
  likes : Nat
  likedBy : List String
  attemptCount : Nat
  completedCount : Nat
  completedBy : List CompletionEvent
  deriving DecidableEq, Repr

/-- The fields of `collectionSchema` the handlers read or write
(`isPrivate` is the schema field `private`). -/
structure Collection where
  id : Nat
  isPrivate : Bool
  views : Nat
  likes : Nat
  likedBy : List String
  puzzles : List Nat
  deriving DecidableEq, Repr

/-- The fields of `userProgressSchema`; `attempts` defaults to 0, `completed` to false,
the three optional fields have no default. -/
structure UserProgress where
  ip : String
  puzzleId : Nat
  collectionId : Nat
  attempts : Nat
  completed : Bool
  completedAt : Option Nat
  bestTime : Option Nat
  bestMoves : Option Nat
  deriving DecidableEq, Repr

/-- The database: three collections of documents in natural order. -/
structure Store where
  collections : List Collection
  puzzles : List Puzzle
  progress : List UserProgress
  deriving DecidableEq, Repr

/-! ## Store primitives (mongoose calls) -/

/-- Update the first document matching `p` (`findByIdAndUpdate`, `findOneAndUpdate`
without upsert): nothing happens when no document matches. -/
def updateFirst {α : Type} (p : α → Bool) (f : α → α) : List α → List α
  | [] => []
  | x :: xs => if p x then f x :: xs else x :: updateFirst p f xs

/-- Update the first document matching `p`, inserting `f fresh` at the end when none
matches (`findOneAndUpdate` with `upsert: true`; `fresh` carries the query fields and
the schema defaults). -/
def upsertFirst {α : Type} (p : α → Bool) (f : α → α) (fresh : α) : List α → List α
  | [] => [f fresh]
  | x :: xs => if p x then f x :: xs else x :: upsertFirst p f fresh xs

/-- `Puzzle.findById`. -/
def findPuzzle (s : Store) (puzzleId : Nat) : Option Puzzle :=
  s.puzzles.find? (fun p => p.id == puzzleId)

/-- `Collection.findById`. -/
def findCollection (s : Store) (collectionId : Nat) : Option Collection :=
  s.collections.find? (fun c => c.id == collectionId)

/-- The query `{ ip: userIp, puzzleId: puzzleId }`. -/
def progressKey (ip : String) (puzzleId : Nat) (r : UserProgress) : Bool :=
  r.ip == ip && r.puzzleId == puzzleId

/-- `UserProgress.findOne({ ip, puzzleId })`. -/
def findProgress (s : Store) (ip : String) (puzzleId : Nat) : Option UserProgress :=
  s.progress.find? (progressKey ip puzzleId)

/-- The document an upsert starts from: query fields plus schema defaults. -/
def freshProgress (ip : String) (puzzleId collectionId : Nat) : UserProgress :=
  { ip := ip, puzzleId := puzzleId, collectionId := collectionId, attempts := 0,
    completed := false, completedAt := none, bestTime := none, bestMoves := none }

/-! ## JavaScript and MongoDB operators -/

/-- The expression `v || d` on an optional number: `undefined` and `0` are falsy. -/
def jsOr : Option Nat → Nat → Nat
  | none, d => d
  | some 0, d => d
  | some (m + 1), _ => m + 1

/-- Truthiness of an optional number. -/
def truthy : Option Nat → Bool
  | none => false
  | some 0 => false
  | some (_ + 1) => true

/-- The update operator `$min`: sets the field when it is absent, else keeps the smaller. -/
def mongoMin (cur : Option Nat) (v : Nat) : Option Nat :=
  match cur with
  | none => some v
  | some c => some (min c v)

/-! ## Progress tracker (`routes/puzzles.js`) -/

/-- `POST /:id/attempt`. -/
def recordAttempt (s : Store) (ip : String) (puzzleId : Nat) : Status × Store :=
  let puzzles := updateFirst (fun p => p.id == puzzleId)
    (fun p => { p with attemptCount := p.attemptCount + 1 }) s.puzzles
  match puzzles.find? (fun p => p.id == puzzleId) with
  | none => (Status.notFound, { s with puzzles := puzzles })
  | some puzzle =>
    let progress := upsertFirst (progressKey ip puzzleId)
      (fun r => { r with attempts := r.attempts + 1, collectionId := puzzle.collectionId,
                         ip := ip, puzzleId := puzzleId })
      (freshProgress ip puzzleId puzzle.collectionId) s.progress
    (Status.ok, { s with puzzles := puzzles, progress := progress })

/-- The update document of `POST /:id/complete` applied to one progress record:
`completed: true, completedAt: new Date(), $min: { bestMoves: moves || 999 }, collectionId`. -/
def completionUpdate (collectionId : Nat) (moves : Option Nat) (now : Nat)
    (r : UserProgress) : UserProgress :=
  { r with completed := true, completedAt := some now,
           bestMoves := mongoMin r.bestMoves (jsOr moves 999),
           collectionId := collectionId }

/-- The step `if (time && (!progress.bestTime || time < progress.bestTime))
progress.bestTime = time` on the returned document. -/
def bestTimeUpdate (time : Option Nat) (r : UserProgress) : UserProgress :=
  match time with
  | none => r
  | some t =>
    if truthy time && (!truthy r.bestTime || decide (t < r.bestTime.getD 0)) then
      { r with bestTime := some t }
    else r

/-- `POST /:id/complete` with body `{ solved, moves, time }`. -/
def recordCompletion (s : Store) (ip : String) (puzzleId : Nat) (solved : Bool)
    (moves time : Option Nat) (now : Nat) : Status × Store :=
  match findPuzzle s puzzleId with
  | none => (Status.notFound, s)
  | some puzzle =>
    if solved then
      let puzzles := updateFirst (fun p => p.id == puzzleId)
        (fun p => { p with completedCount := p.completedCount + 1,
                           completedBy := p.completedBy ++
                             [{ ip := ip, moves := jsOr moves 0, completedAt := now }] })
        s.puzzles
      let progress := upsertFirst (progressKey ip puzzleId)
        (fun r => bestTimeUpdate time (completionUpdate puzzle.collectionId moves now r))
        (freshProgress ip puzzleId puzzle.collectionId) s.progress
      (Status.ok, { s with puzzles := puzzles, progress := progress })
    else (Status.ok, s)

/-- One successful completion request: the supplied move count, the optional elapsed
time, and the clock reading of the call. -/
structure CompletionCall where
  moves : Nat
  time : Option Nat
  now : Nat
  deriving DecidableEq, Repr

/-- A sequence of `POST /:id/complete` requests with `solved: true` by one identity on
one puzzle, in order. -/
def completeAll (s : Store) (ip : String) (puzzleId : Nat) : List CompletionCall → Store
  | [] => s
  | c :: cs =>
    completeAll (recordCompletion s ip puzzleId true (some c.moves) c.time c.now).2
      ip puzzleId cs

/-- The best-move-count of the (identity, puzzle) record, `none` when the record or
the field is absent. -/
def bestMovesOf (s : Store) (ip : String) (puzzleId : Nat) : Option Nat :=
  (findProgress s ip puzzleId).bind (fun r => r.bestMoves)

/-- A sequence of tracker requests by any identities on any puzzles. -/
inductive TrackerCall where
  | attempt (ip : String) (puzzleId : Nat)
  | complete (ip : String) (puzzleId : Nat) (solved : Bool) (moves time : Option Nat)
      (now : Nat)
  deriving DecidableEq, Repr

/-- The store after one tracker request. -/
def applyCall (s : Store) : TrackerCall → Store
  | TrackerCall.attempt ip puzzleId => (recordAttempt s ip puzzleId).2
  | TrackerCall.complete ip puzzleId solved moves time now =>
    (recordCompletion s ip puzzleId solved moves time now).2

/-- The store after a sequence of tracker requests, in order. -/
def applyCalls (s : Store) : List TrackerCall → Store
  | [] => s
  | c :: cs => applyCalls (applyCall s c) cs

/-- The admin check `!req.headers['x-admin-key'] || req.headers['x-admin-key'] !==
process.env.ADMIN_KEY`: `true` when the request is let through. -/
def adminCheck (header adminKey : Option String) : Bool :=
  match header with
  | none => false
  | some h => h != "" && adminKey == some h

/-- `PUT /:id` of `routes/puzzles.js` with a body that sets `collectionId` only:
`Puzzle.findByIdAndUpdate(req.params.id, req.body)`. -/
def updatePuzzleCollection (s : Store) (header adminKey : Option String) (puzzleId : Nat)
    (collectionId : Nat) : Status × Store :=
  if adminCheck header adminKey then
    match findPuzzle s puzzleId with
    | none => (Status.notFound, s)
    | some _ =>
      let puzzles := updateFirst (fun p => p.id == puzzleId)
        (fun p => { p with collectionId := collectionId }) s.puzzles
      (Status.ok, { s with puzzles := puzzles })
  else (Status.unauthorized, s)

/-- The best time of the (identity, puzzle) record, `none` when the record or the field
is absent. -/
def bestTimeOf (s : Store) (ip : String) (puzzleId : Nat) : Option Nat :=
  (findProgress s ip puzzleId).bind (fun r => r.bestTime)

/-- Whether the completion-event list of the puzzle holds an event of the identity with
the given move count. -/
def hasCompletionEvent (s : Store) (ip : String) (puzzleId : Nat) (moves : Nat) : Bool :=
  match findPuzzle s puzzleId with
  | none => false
  | some p => p.completedBy.any (fun e => e.ip == ip && e.moves == moves)

/-- Whether a tracker request, when it is a completion, supplies a move count of at
least 1. -/
def suppliesMoves : TrackerCall → Prop
  | TrackerCall.attempt _ _ => True
  | TrackerCall.complete _ _ _ moves _ _ => ∃ m, moves = some (m + 1)

/-- The invariant of the Progress Records kept by the tracker: a completed record has a
completion timestamp and a best-move-count, and a stored best-move-count is the move
count of a completion event of that identity on that puzzle or, unless `strict`, the
sentinel 999. -/
def ProgressInv (strict : Prop) (s : Store) : Prop :=
  ∀ r ∈ s.progress,
    (r.completed = true → r.completedAt ≠ none ∧ r.bestMoves ≠ none) ∧
    (∀ b, r.bestMoves = some b →
      (¬ strict ∧ b = 999) ∨ hasCompletionEvent s r.ip r.puzzleId b = true)

/-- `POST /:id/like` of `routes/puzzles.js`. -/
def likePuzzle (s : Store) (ip : String) (puzzleId : Nat) : Status × Store :=
  match findPuzzle s puzzleId with
  | none => (Status.notFound, s)
  | some puzzle =>
    if puzzle.likedBy.contains ip then (Status.conflict, s)
    else
      let puzzles := updateFirst (fun p => p.id == puzzleId)
        (fun p => { p with likes := puzzle.likes + 1, likedBy := puzzle.likedBy ++ [ip] })
        s.puzzles
      (Status.ok, { s with puzzles := puzzles })

/-- `GET /:id` of `routes/puzzles.js`: the guard reads
`collection && collection.private && !req.headers['x-admin-key']`; an absent header and
the empty string are falsy. -/
def getPuzzle (s : Store) (header : Option String) (puzzleId : Nat) :
    Status × Option Puzzle :=
  match findPuzzle s puzzleId with
  | none => (Status.notFound, none)
  | some puzzle =>
    match findCollection s puzzle.collectionId with
    | none => (Status.ok, some puzzle)
    | some collection =>
      if collection.isPrivate && !(header.isSome && header != some "") then
        (Status.notFound, none)
      else (Status.ok, some puzzle)

/-! ## Collection routes (`routes/collections.js`) -/

/-- `POST /:id/like` of `routes/collections.js`. -/
def likeCollection (s : Store) (ip : String) (collectionId : Nat) : Status × Store :=
  match findCollection s collectionId with
  | none => (Status.notFound, s)
  | some collection =>
    if collection.likedBy.contains ip then (Status.conflict, s)
    else
      let collections := updateFirst (fun c => c.id == collectionId)
        (fun c => { c with likes := collection.likes + 1,
                           likedBy := collection.likedBy ++ [ip] })
        s.collections
      (Status.ok, { s with collections := collections })

/-- `GET /:id` of `routes/collections.js`: the guard reads
`collection.private && !req.headers['x-admin-key']`. -/
def getCollection (s : Store) (header : Option String) (collectionId : Nat) :
    Status × Option Collection :=
  match findCollection s collectionId with
  | none => (Status.notFound, none)
  | some collection =>
    if collection.isPrivate && !(header.isSome && header != some "") then
      (Status.notFound, none)
    else (Status.ok, some collection)

/-- `GET /:id/puzzles` of `routes/collections.js` (creation order is natural order). -/
def getCollectionPuzzles (s : Store) (header : Option String) (collectionId : Nat) :
    Status × Option (List Puzzle) :=
  match findCollection s collectionId with
  | none => (Status.notFound, none)
  | some collection =>
    if collection.isPrivate && !(header.isSome && header != some "") then
      (Status.notFound, none)
    else (Status.ok, some (s.puzzles.filter (fun p => p.collectionId == collectionId)))

/-! ## JavaScript numbers

A non-negative finite double is kept as an exact fraction `(numerator, denominator)`.
`toDouble` rounds a positive fraction to the nearest number with a 53-bit significand,
ties to even, as IEEE 754 binary64 does in its normal range. -/

/-- The exact quotient `a / n` of natural numbers, `n > 0`, rounded to the nearest
integer, halves up. -/
def roundDiv (a n : Nat) : Nat := (2 * a + n) / (2 * n)

/-- Position of the highest set bit of `n`, by repeated halving (`fuel` bounds the
number of halvings). -/
def log2Aux : Nat → Nat → Nat
  | 0, _ => 0
  | fuel + 1, n => if 2 ≤ n then log2Aux fuel (n / 2) + 1 else 0

/-- The integer part of the binary logarithm of a positive natural number. -/
def log2 (n : Nat) : Nat := log2Aux n n

/-- The integer part of the binary logarithm of `n / d`, for positive `n` and `d`. -/
def floorLog2 (n d : Nat) : Int :=
  let l : Int := (log2 n : Int) - (log2 d : Int)
  let reached : Bool :=
    match l with
    | Int.ofNat k => decide (d * 2 ^ k ≤ n)
    | Int.negSucc k => decide (d ≤ n * 2 ^ (k + 1))
  if reached then l else l - 1

/-- The integer nearest to `n / d`, ties to the even integer. -/
def roundHalfEven (n d : Nat) : Nat :=
  if 2 * (n % d) < d then n / d
  else if d < 2 * (n % d) then n / d + 1
  else if (n / d) % 2 = 0 then n / d else n / d + 1

/-- The double nearest to the fraction `n / d`. -/
def toDouble (n d : Nat) : Nat × Nat :=
  if n = 0 then (0, 1)
  else
    match floorLog2 n d - 52 with
    | Int.ofNat k => (roundHalfEven n (d * 2 ^ k) * 2 ^ k, 1)
    | Int.negSucc k => (roundHalfEven (n * 2 ^ (k + 1)) d, 2 ^ (k + 1))

/-- The quotient `a / b` of two integer-valued numbers. -/
def jsDiv (a b : Nat) : Nat × Nat := toDouble a b

/-- The product `x * k` of a double and an integer-valued number. -/
def jsMul (x : Nat × Nat) (k : Nat) : Nat × Nat := toDouble (x.1 * k) x.2

/-- `Math.round(x)`: the integer part of `x + 1/2`, computed exactly. -/
def mathRound (x : Nat × Nat) : Nat := (2 * x.1 + x.2) / (2 * x.2)

/-! ## Admin routes (`routes/admin.js`) -/

/-- The `$group` stage of `GET /stats`: `none` when there is no progress document, else
the pair (`totalAttempts`, `totalCompleted`). -/
def completionStats (s : Store) : Option (Nat × Nat) :=
  match s.progress with
  | [] => none
  | _ :: _ =>
    some ((s.progress.map (fun r => r.attempts)).sum,
      (s.progress.map (fun r => if r.completed then 1 else 0)).sum)

/-- The field `averageSuccessRate` of `GET /stats`:
`stats.totalAttempts > 0 ? Math.round((stats.totalCompleted / stats.totalAttempts) * 100) : 0`
with `stats = completionStats[0] || { totalAttempts: 0, totalCompleted: 0 }`. -/
def averageSuccessRate (s : Store) : Nat :=
  let stats := (completionStats s).getD (0, 0)
  if stats.1 > 0 then mathRound (jsMul (jsDiv stats.2 stats.1) 100) else 0

/-- Follows the specification's words: `round(100 * totalCompleted / totalAttempts)` to
the nearest integer, halves rounded up, and 0 when `totalAttempts` is 0. -/
def averageSuccessRateSpec (totalCompleted totalAttempts : Nat) : Nat :=
  if totalAttempts = 0 then 0 else roundDiv (100 * totalCompleted) totalAttempts

/-! ## User routes (`routes/user.js`) -/

/-- `UserProgress.find({ ip: userIp })`. -/
def userProgress (s : Store) (ip : String) : List UserProgress :=
  s.progress.filter (fun r => r.ip == ip)

/-- `progress.filter(p => p.completed).length`. -/
def totalSolved (s : Store) (ip : String) : Nat :=
  ((userProgress s ip).filter (fun p => p.completed)).length

/-- `progress.reduce((sum, p) => sum + p.attempts, 0)`. -/
def totalAttempts (s : Store) (ip : String) : Nat :=
  (userProgress s ip).foldl (fun sum p => sum + p.attempts) 0

/-- `[...new Set(xs)]`: the distinct values in order of first occurrence. -/
def setToArray (xs : List Nat) : List Nat :=
  xs.foldl (fun acc x => if acc.contains x then acc else acc ++ [x]) []

/-- `Puzzle.countDocuments({ collectionId })`. -/
def countPuzzles (s : Store) (collectionId : Nat) : Nat :=
  (s.puzzles.filter (fun p => p.collectionId == collectionId)).length

/-- The list `collectionsCompleted` built by `GET /stats`. -/
def collectionsCompleted (s : Store) (ip : String) : List Nat :=
  (setToArray ((userProgress s ip).map (fun p => p.collectionId))).filter
    (fun collectionId =>
      let collectionProgress :=
        (userProgress s ip).filter (fun p => p.collectionId == collectionId)
      let collectionPuzzles := countPuzzles s collectionId
      let completedInCollection := (collectionProgress.filter (fun p => p.completed)).length
      completedInCollection == collectionPuzzles && decide (collectionPuzzles > 0))

/-- The number `completedInCollection` computed by `GET /stats` for one collection: the
completed records of the identity that carry the collection. -/
def completedInCollection (s : Store) (ip : String) (collectionId : Nat) : Nat :=
  (((userProgress s ip).filter (fun p => p.collectionId == collectionId)).filter
    (fun p => p.completed)).length

/-- Whether `GET /stats` counts the collection as complete for the identity. -/
def isCollectionComplete (s : Store) (ip : String) (collectionId : Nat) : Bool :=
  (collectionsCompleted s ip).contains collectionId

/-- Follows the specification's words: the distinct puzzles currently in the collection
for which the identity has a completed Progress Record. -/
def completedPuzzlesInCollection (s : Store) (ip : String) (collectionId : Nat) : List Nat :=
  ((s.puzzles.filter (fun p => p.collectionId == collectionId &&
      s.progress.any (fun r => r.ip == ip && r.puzzleId == p.id && r.completed))).map
    (fun p => p.id)).dedup

/-- Follows the specification's words: the number of distinct completed puzzles of the
collection equals its total puzzle count, and that count is greater than zero. -/
def isCollectionCompleteSpec (s : Store) (ip : String) (collectionId : Nat) : Bool :=
  (completedPuzzlesInCollection s ip collectionId).length == countPuzzles s collectionId &&
    decide (countPuzzles s collectionId > 0)

/-- One achievement descriptor; `unlockedAt` is `some none` for the literal `null` and
`none` when the field is not written. -/
structure Achievement where
  type : String
  title : String
  description : String
  unlocked : Bool
  unlockedAt : Option (Option Nat)
  deriving DecidableEq, Repr

/-- The constant `solvingMilestones`. -/
def solvingMilestones : List Nat := [1, 5, 10, 25, 50, 100, 200, 500]

/-- The descriptor pushed for one solving milestone. -/
def milestoneAchievement (milestone : Nat) : Achievement :=
  { type := "solving",
    title := toString milestone ++ " Puzzles Solved",
    description := "You have solved " ++ toString milestone ++ " puzzles!",
    unlocked := true,
    unlockedAt := some none }

/-- The descriptor pushed for the perfect solver. -/
def perfectAchievement : Achievement :=
  { type := "perfect",
    title := "Perfect Solver",
    description := "Solved every puzzle on the first try!",
    unlocked := true,
    unlockedAt := none }

/-- The title of a category achievement:
`category.split('-').map(w => w.charAt(0).toUpperCase() + w.slice(1)).join(' ')`
followed by ` Master` (upper-casing as on ASCII letters). -/
def categoryTitle (category : String) : String :=
  " ".intercalate ((category.splitOn "-").map String.capitalize) ++ " Master"

/-- The descriptor pushed for one mastered category. -/
def categoryAchievement (category : String) (count : Nat) : Achievement :=
  { type := "category",
    title := categoryTitle category,
    description := "Solved " ++ toString count ++ " " ++ category ++ " puzzles",
    unlocked := true,
    unlockedAt := none }

/-- The statement `obj[k] = (obj[k] || 0) + 1` on an object with string keys kept in
insertion order. -/
def bump : List (String × Nat) → String → List (String × Nat)
  | [], k => [(k, 1)]
  | (k', n) :: rest, k => if k' == k then (k', n + 1) :: rest else (k', n) :: bump rest k

/-- The object `categoryProgress` of `GET /achievements`. -/
def categoryProgress (s : Store) (ip : String) : List (String × Nat) :=
  (userProgress s ip).foldl
    (fun acc p =>
      if p.completed then
        match findPuzzle s p.puzzleId with
        | some puzzle => bump acc puzzle.category
        | none => acc
      else acc) []

/-- `GET /achievements`. -/
def computeAchievements (s : Store) (ip : String) : List Achievement :=
  (solvingMilestones.filter (fun milestone => decide (totalSolved s ip ≥ milestone))).map
      milestoneAchievement
    ++ (if totalAttempts s ip ≥ 10 ∧ totalSolved s ip = totalAttempts s ip then
          [perfectAchievement] else [])
    ++ ((categoryProgress s ip).filter (fun e => decide (e.2 ≥ 10))).map
        (fun e => categoryAchievement e.1 e.2)

/-- `userProgress.filter(p => p.completed).map(p => p.puzzleId)`. -/
def completedPuzzleIds (s : Store) (ip : String) : List Nat :=
  ((userProgress s ip).filter (fun p => p.completed)).map (fun p => p.puzzleId)

/-- `Puzzle.find({ _id: { $in: completedPuzzleIds } })`. -/
def completedPuzzles (s : Store) (ip : String) : List Puzzle :=
  s.puzzles.filter (fun p => (completedPuzzleIds s ip).contains p.id)

/-- The constant `avgDifficulty` of `GET /recommendations`, with `Math.round(sum / length)`
taken as the exact rounding (the double quotient rounds alike for difficulties in 1..10,
see `avgDifficulty_eq_double_rounding`). -/
def avgDifficulty (s : Store) (ip : String) : Nat :=
  if (completedPuzzles s ip).length > 0 then
    roundDiv ((completedPuzzles s ip).foldl (fun sum p => sum + p.difficulty) 0)
      (completedPuzzles s ip).length
  else 3

/-- The object `categoryCount` of `GET /recommendations`. -/
def categoryCount (s : Store) (ip : String) : List (String × Nat) :=
  (completedPuzzles s ip).foldl (fun acc p => bump acc p.category) []

/-- The comparison `x > y` on property reads that may be `undefined`. -/
def jsGt : Option Nat → Option Nat → Bool
  | some x, some y => decide (x > y)
  | _, _ => false

/-- The constant `preferredCategory`: `Object.keys(categoryCount).reduce((a, b) =>
categoryCount[a] > categoryCount[b] ? a : b, 'life-and-death')`. -/
def preferredCategory (s : Store) (ip : String) : String :=
  ((categoryCount s ip).map (fun e => e.1)).foldl
    (fun a b => if jsGt ((categoryCount s ip).lookup a) ((categoryCount s ip).lookup b)
      then a else b)
    "life-and-death"

/-- The filter document of the recommendation query. -/
def matchesQuery (s : Store) (ip : String) (p : Puzzle) : Bool :=
  !(completedPuzzleIds s ip).contains p.id &&
    ((decide ((avgDifficulty s ip : Int) - 1 ≤ (p.difficulty : Int)) &&
        decide ((p.difficulty : Int) ≤ (avgDifficulty s ip : Int) + 1)) ||
      p.category == preferredCategory s ip)

/-- The puzzles matching the recommendation query, in natural order. -/
def candidates (s : Store) (ip : String) : List Puzzle :=
  s.puzzles.filter (matchesQuery s ip)

/-- The sort document `{ views: -1, likes: -1 }`: `a` may come before `b`. -/
def popularityOrder (a b : Puzzle) : Prop :=
  a.views > b.views ∨ (a.views = b.views ∧ a.likes ≥ b.likes)

instance : DecidableRel popularityOrder :=
  fun a b => inferInstanceAs (Decidable (a.views > b.views ∨ (a.views = b.views ∧ a.likes ≥ b.likes)))

instance : IsTotal Puzzle popularityOrder :=
  ⟨fun a b => by unfold popularityOrder; omega⟩

instance : IsTrans Puzzle popularityOrder :=
  ⟨fun a b c => by unfold popularityOrder; omega⟩

/-- The candidates in sort order; documents with equal sort keys keep their natural order. -/
def rankedCandidates (s : Store) (ip : String) : List Puzzle :=
  (candidates s ip).insertionSort popularityOrder

/-- `.populate('collectionId', 'name private')`: the referenced collection, `none` (the
value `null`) when it does not exist. -/
def populate (s : Store) (p : Puzzle) : Puzzle × Option Collection :=
  (p, findCollection s p.collectionId)

/-- `recommendations.filter(p => !p.collectionId.private)`: reading `private` of `null`
throws, which the handler answers with status 500. -/
def filterPublic : List (Puzzle × Option Collection) → Except Status (List Puzzle)
  | [] => Except.ok []
  | (_, none) :: _ => Except.error Status.serverError
  | (p, some c) :: rest =>
    match filterPublic rest with
    | Except.error e => Except.error e
    | Except.ok r => Except.ok (if !c.isPrivate then p :: r else r)

/-- `GET /recommendations`. -/
def recommend (s : Store) (ip : String) : Except Status (List Puzzle) :=
  filterPublic (((rankedCandidates s ip).take 10).map (populate s))

/-- Whether the puzzle's collection exists and is not private. -/
def inPublicCollection (s : Store) (p : Puzzle) : Bool :=
  match findCollection s p.collectionId with
  | some c => !c.isPrivate
  | none => false

/-- Follows the specification's words: filter out candidates of private collections,
then sort by (views descending, likes descending) and truncate to `limit`. -/
def recommendSpec (s : Store) (ip : String) (limit : Nat) : List Puzzle :=
  (((candidates s ip).filter (inPublicCollection s)).insertionSort popularityOrder).take limit

/-- The distinct strings of a list in order of first occurrence: the key order of an
object filled by `obj[k] = ...` for the strings of the list in turn. -/
def firstSeen (xs : List String) : List String :=
  xs.foldl (fun acc x => if acc.contains x then acc else acc ++ [x]) []

/-- The categories of the identity's completed puzzles, in the order of the query result. -/
def completedCategories (s : Store) (ip : String) : List String :=
  (completedPuzzles s ip).map (fun p => p.category)

/-! ## Concrete stores used as test inputs -/

/-- Puzzle P1 of the scenario: category "tesuji", difficulty 4, in collection 1. -/
def scenarioPuzzle : Puzzle :=
  { id := 1, collectionId := 1, difficulty := 4, category := "tesuji", views := 0,
    likes := 0, likedBy := [], attemptCount := 0, completedCount := 0, completedBy := [] }

/-- A store holding only `scenarioPuzzle` and no progress record. -/
def scenarioStore : Store :=
  { collections := [{ id := 1, isPrivate := false, views := 0, likes := 0, likedBy := [],
                      puzzles := [1] }],
    puzzles := [scenarioPuzzle], progress := [] }

/-- A puzzle of difficulty 3 and category "tesuji" with the given identity, collection
and view count. -/
def mkPuzzle (id collectionId views : Nat) : Puzzle :=
  { id := id, collectionId := collectionId, difficulty := 3, category := "tesuji",
    views := views, likes := 0, likedBy := [], attemptCount := 0, completedCount := 0,
    completedBy := [] }

/-- A collection with the given identity, privacy flag and puzzle list. -/
def mkCollection (id : Nat) (isPrivate : Bool) (puzzles : List Nat) : Collection :=
  { id := id, isPrivate := isPrivate, views := 0, likes := 0, likedBy := [],
    puzzles := puzzles }

/-- Eleven candidates: puzzle 0, the most viewed, belongs to the private collection 2;
puzzles 1 to 10 belong to the public collection 1 and have 10 down to 1 views. -/
def rankingStore : Store :=
  { collections := [mkCollection 1 false [1, 2, 3, 4, 5, 6, 7, 8, 9, 10],
                    mkCollection 2 true [0]],
    puzzles := mkPuzzle 0 2 100 :: (List.range 10).map (fun i => mkPuzzle (i + 1) 1 (10 - i)),
    progress := [] }

/-- Collection 1 with puzzles 1 and 2, an empty collection 2, no progress. -/
def twoPuzzleStore : Store :=
  { collections := [mkCollection 1 false [1, 2], mkCollection 2 false []],
    puzzles := [mkPuzzle 1 1 0, mkPuzzle 2 1 0], progress := [] }

/-- The visitor completes puzzle 1 of `twoPuzzleStore`; an administrator then moves
puzzle 1 to collection 2 (`PUT /:id` with `collectionId: 2`). -/
def movedPuzzleStore : Store :=
  (updatePuzzleCollection
    (recordCompletion twoPuzzleStore "1.2.3.4" 1 true (some 7) none 1).2
    (some "key") (some "key") 1 2).2

/-- The visitor completes both puzzles of `twoPuzzleStore`. -/
def bothCompletedStore : Store :=
  (recordCompletion (recordCompletion twoPuzzleStore "1.2.3.4" 1 true (some 7) none 1).2
    "1.2.3.4" 2 true (some 4) none 2).2

/-- Eleven puzzles 0 to 10 in one public collection, no progress. -/
def elevenPuzzleStore : Store :=
  { collections := [mkCollection 1 false (List.range 11)],
    puzzles := (List.range 11).map (fun i => mkPuzzle i 1 0),
    progress := [] }

/-- Two attempts on puzzle 0 that is never completed, completions of the puzzles 1 to 10,
and one attempt on each of the puzzles 1 to 8. -/
def unevenCalls : List TrackerCall :=
  [TrackerCall.attempt "1.2.3.4" 0, TrackerCall.attempt "1.2.3.4" 0] ++
    (List.range 10).map
      (fun i => TrackerCall.complete "1.2.3.4" (i + 1) true (some 5) none 1) ++
    (List.range 8).map (fun i => TrackerCall.attempt "1.2.3.4" (i + 1))

/-- Puzzle 1 of category "tesuji" and puzzle 2 of category "endgame". -/
def tiePuzzles : List Puzzle :=
  [{ mkPuzzle 1 1 0 with category := "tesuji" }, { mkPuzzle 2 1 0 with category := "endgame" }]

/-- The visitor completes puzzle 1 and then puzzle 2 of `tiePuzzles`. -/
def tieStore : Store :=
  (recordCompletion
    (recordCompletion
      { collections := [mkCollection 1 false [1, 2]], puzzles := tiePuzzles, progress := [] }
      "1.2.3.4" 1 true (some 5) none 1).2
    "1.2.3.4" 2 true (some 5) none 2).2

/-- Forty puzzles 0 to 39 in one public collection, no progress. -/
def fortyPuzzleStore : Store :=
  { collections := [mkCollection 1 false (List.range 40)],
    puzzles := (List.range 40).map (fun i => mkPuzzle i 1 0),
    progress := [] }

/-- One attempt on each of the puzzles 0 to 39, then completions of the puzzles 0 to 22. -/
def fortyAttemptCalls : List TrackerCall :=
  (List.range 40).map (fun i => TrackerCall.attempt "1.2.3.4" i) ++
    (List.range 23).map (fun i => TrackerCall.complete "1.2.3.4" i true (some 5) none 1)

/-! ## Theorems -/

/-! ### Store primitives -/

theorem find?_upsertFirst {α : Type} (p : α → Bool) (f : α → α) (fresh : α)
    (hf : ∀ x, p x = true → p (f x) = true) (hfresh : p (f fresh) = true) (l : List α) :
    (upsertFirst p f fresh l).find? p = some (f ((l.find? p).getD fresh)) := by
  induction l with
  | nil => simp [upsertFirst, List.find?, hfresh]
  | cons x xs ih =>
    by_cases hx : p x = true
    · simp [upsertFirst, hx, List.find?, hf x hx]
    · simp only [Bool.not_eq_true] at hx
      simp [upsertFirst, hx, List.find?, ih]

theorem find?_updateFirst {α : Type} (p : α → Bool) (f : α → α)
    (hf : ∀ x, p x = true → p (f x) = true) (l : List α) :
    (updateFirst p f l).find? p = (l.find? p).map f := by
  induction l with
  | nil => simp [updateFirst]
  | cons x xs ih =>
    by_cases hx : p x = true
    · simp [updateFirst, hx, List.find?, hf x hx]
    · simp only [Bool.not_eq_true] at hx
      simp [updateFirst, hx, List.find?, ih]

/-! ### recordCompletion on one (identity, puzzle) pair -/

theorem progressKey_bestTimeUpdate (ip : String) (pid : Nat) (time : Option Nat)
    (r : UserProgress) :
    progressKey ip pid (bestTimeUpdate time r) = progressKey ip pid r := by
  unfold bestTimeUpdate
  cases time with
  | none => rfl
  | some t => dsimp only; split <;> rfl

theorem bestMoves_bestTimeUpdate (time : Option Nat) (r : UserProgress) :
    (bestTimeUpdate time r).bestMoves = r.bestMoves := by
  unfold bestTimeUpdate
  cases time with
  | none => rfl
  | some t => dsimp only; split <;> rfl

theorem completed_bestTimeUpdate (time : Option Nat) (r : UserProgress) :
    (bestTimeUpdate time r).completed = r.completed := by
  unfold bestTimeUpdate
  cases time with
  | none => rfl
  | some t => dsimp only; split <;> rfl

theorem completedAt_bestTimeUpdate (time : Option Nat) (r : UserProgress) :
    (bestTimeUpdate time r).completedAt = r.completedAt := by
  unfold bestTimeUpdate
  cases time with
  | none => rfl
  | some t => dsimp only; split <;> rfl

theorem ip_bestTimeUpdate (time : Option Nat) (r : UserProgress) :
    (bestTimeUpdate time r).ip = r.ip := by
  unfold bestTimeUpdate
  cases time with
  | none => rfl
  | some t => dsimp only; split <;> rfl

/-- The record of (ip, pid) after a successful completion: the update document and the
best-time step applied to the previous record, or to a fresh one. -/
theorem findProgress_recordCompletion (s : Store) (ip : String) (pid : Nat)
    (moves time : Option Nat) (now : Nat) (puzzle : Puzzle)
    (h : findPuzzle s pid = some puzzle) :
    findProgress (recordCompletion s ip pid true moves time now).2 ip pid =
      some (bestTimeUpdate time (completionUpdate puzzle.collectionId moves now
        ((findProgress s ip pid).getD (freshProgress ip pid puzzle.collectionId)))) := by
  simp only [recordCompletion, h, if_true, findProgress]
  apply find?_upsertFirst
  · intro x hx
    rw [progressKey_bestTimeUpdate]
    simpa [progressKey, completionUpdate] using hx
  · rw [progressKey_bestTimeUpdate]
    simp [progressKey, completionUpdate, freshProgress]

/-- A completion never removes the puzzle it is recorded on. -/
theorem findPuzzle_recordCompletion (s : Store) (ip : String) (pid : Nat) (solved : Bool)
    (moves time : Option Nat) (now : Nat) (h : findPuzzle s pid ≠ none) :
    findPuzzle (recordCompletion s ip pid solved moves time now).2 pid ≠ none := by
  cases hp : findPuzzle s pid with
  | none => exact absurd hp h
  | some puzzle =>
    cases solved with
    | false => simp [recordCompletion, hp]
    | true =>
      simp only [recordCompletion, hp, if_true]
      simp only [findPuzzle] at hp ⊢
      rw [find?_updateFirst _ _ (fun x hx => by simpa using hx)]
      simp [hp]

theorem bestMovesOf_recordCompletion (s : Store) (ip : String) (pid : Nat)
    (moves time : Option Nat) (now : Nat) (h : findPuzzle s pid ≠ none) :
    bestMovesOf (recordCompletion s ip pid true moves time now).2 ip pid =
      mongoMin (bestMovesOf s ip pid) (jsOr moves 999) := by
  cases hp : findPuzzle s pid with
  | none => exact absurd hp h
  | some puzzle =>
    rw [bestMovesOf, findProgress_recordCompletion s ip pid moves time now puzzle hp]
    simp only [Option.some_bind, bestMoves_bestTimeUpdate, completionUpdate]
    cases hr : findProgress s ip pid <;> simp [bestMovesOf, hr, freshProgress]

theorem bestMovesOf_completeAll (ip : String) (pid : Nat) (cs : List CompletionCall) :
    ∀ s : Store, findPuzzle s pid ≠ none →
      bestMovesOf (completeAll s ip pid cs) ip pid =
        (cs.map (fun c => jsOr (some c.moves) 999)).foldl mongoMin (bestMovesOf s ip pid) := by
  induction cs with
  | nil => intro s _; rfl
  | cons c cs ih =>
    intro s hs
    simp only [completeAll, List.map_cons, List.foldl_cons]
    rw [ih _ (findPuzzle_recordCompletion s ip pid true (some c.moves) c.time c.now hs),
      bestMovesOf_recordCompletion s ip pid (some c.moves) c.time c.now hs]

theorem mongoMin_right_comm (b : Option Nat) (x y : Nat) :
    mongoMin (mongoMin b x) y = mongoMin (mongoMin b y) x := by
  cases b with
  | none => simp [mongoMin, min_comm]
  | some c => simp [mongoMin, min_assoc, min_comm x y]

theorem foldl_mongoMin_some (vs : List Nat) :
    ∀ b0 : Nat, ∃ b, vs.foldl mongoMin (some b0) = some b ∧ (b = b0 ∨ b ∈ vs) ∧
      b ≤ b0 ∧ ∀ v ∈ vs, b ≤ v := by
  induction vs with
  | nil => intro b0; exact ⟨b0, rfl, Or.inl rfl, le_refl _, by simp⟩
  | cons v vs ih =>
    intro b0
    obtain ⟨b, hb, hmem, hle, hall⟩ := ih (min b0 v)
    refine ⟨b, by simpa [mongoMin] using hb, ?_, le_trans hle (min_le_left _ _), ?_⟩
    · rcases hmem with h | h
      · rcases min_choice b0 v with h' | h'
        · exact Or.inl (h.trans h')
        · exact Or.inr (by simp [h, h'])
      · exact Or.inr (List.mem_cons_of_mem _ h)
    · intro w hw
      rcases List.mem_cons.mp hw with h | h
      · exact h ▸ le_trans hle (min_le_right _ _)
      · exact hall w h

theorem foldl_mongoMin_none (vs : List Nat) (hne : vs ≠ []) :
    ∃ b, vs.foldl mongoMin none = some b ∧ b ∈ vs ∧ ∀ v ∈ vs, b ≤ v := by
  cases vs with
  | nil => exact absurd rfl hne
  | cons v vs =>
    obtain ⟨b, hb, hmem, hle, hall⟩ := foldl_mongoMin_some vs v
    refine ⟨b, by simpa [mongoMin] using hb, ?_, ?_⟩
    · rcases hmem with h | h
      · simp [h]
      · exact List.mem_cons_of_mem _ h
    · intro w hw
      rcases List.mem_cons.mp hw with h | h
      · exact h ▸ hle
      · exact hall w h

theorem jsOr_some_pos (m d : Nat) (h : 1 ≤ m) : jsOr (some m) d = m := by
  cases m with
  | zero => exact absurd h (by decide)
  | succ n => rfl

/-- C1 (amended): for a fixed (identity, puzzle) pair with no Progress Record and any
non-empty sequence of successful recordCompletion calls, the best-move-count afterwards
is the minimum of the values `moves || 999` of the calls; when every move count is at
least 1 (values above 999 included) it is min(m1, ..., mk); and every permutation of
the sequence gives the same best-move-count. -/
theorem bestMoves_eq_min_of_completions (s : Store) (ip : String) (pid : Nat)
    (cs : List CompletionCall) (hp : findPuzzle s pid ≠ none)
    (hr : findProgress s ip pid = none) (hne : cs ≠ []) :
    (∃ b, bestMovesOf (completeAll s ip pid cs) ip pid = some b ∧
        b ∈ cs.map (fun c => jsOr (some c.moves) 999) ∧
        ∀ v ∈ cs.map (fun c => jsOr (some c.moves) 999), b ≤ v) ∧
    ((∀ c ∈ cs, 1 ≤ c.moves) →
      ∃ b, bestMovesOf (completeAll s ip pid cs) ip pid = some b ∧
        b ∈ cs.map (fun c => c.moves) ∧ ∀ m ∈ cs.map (fun c => c.moves), b ≤ m) ∧
    (∀ cs' : List CompletionCall, cs'.Perm cs →
      bestMovesOf (completeAll s ip pid cs') ip pid =
        bestMovesOf (completeAll s ip pid cs) ip pid) := by
  have h0 : bestMovesOf s ip pid = none := by simp [bestMovesOf, hr]
  have hmain : ∃ b, bestMovesOf (completeAll s ip pid cs) ip pid = some b ∧
        b ∈ cs.map (fun c => jsOr (some c.moves) 999) ∧
        ∀ v ∈ cs.map (fun c => jsOr (some c.moves) 999), b ≤ v := by
    rw [bestMovesOf_completeAll ip pid cs s hp, h0]
    exact foldl_mongoMin_none _ (by simpa using hne)
  refine ⟨hmain, ?_, ?_⟩
  · intro hpos
    have hmap : cs.map (fun c => jsOr (some c.moves) 999) = cs.map (fun c => c.moves) :=
      List.map_congr_left (fun c hc => jsOr_some_pos c.moves 999 (hpos c hc))
    rw [hmap] at hmain
    exact hmain
  · intro cs' hperm
    rw [bestMovesOf_completeAll ip pid cs' s hp, bestMovesOf_completeAll ip pid cs s hp]
    exact List.Perm.foldl_eq' (hperm.map _) (fun x _ y _ z => mongoMin_right_comm z x y) _

/-- Witness for C1: the scenario of the specification, 12 moves and then 9 moves. -/
theorem bestMoves_eq_min_of_completions_witness :
    (∃ b, bestMovesOf (completeAll scenarioStore "1.2.3.4" 1
          [{ moves := 12, time := none, now := 5 }, { moves := 9, time := none, now := 7 }])
          "1.2.3.4" 1 = some b ∧
        b ∈ [12, 9] ∧ ∀ m ∈ [12, 9], b ≤ m) ∧
    bestMovesOf (completeAll scenarioStore "1.2.3.4" 1
          [{ moves := 12, time := none, now := 5 }, { moves := 9, time := none, now := 7 }])
          "1.2.3.4" 1 = some 9 :=
  ⟨(bestMoves_eq_min_of_completions scenarioStore "1.2.3.4" 1
      [{ moves := 12, time := none, now := 5 }, { moves := 9, time := none, now := 7 }]
      (by decide) (by decide) (by decide)).2.1 (by decide), by decide⟩

/-- C1 (counterexample): a single successful completion with move count 0 on a pair
without a record leaves best-move-count 999, not min(0) = 0. -/
theorem bestMoves_zero_moves_counterexample :
    findProgress scenarioStore "1.2.3.4" 1 = none ∧
    bestMovesOf (completeAll scenarioStore "1.2.3.4" 1
      [{ moves := 0, time := none, now := 5 }]) "1.2.3.4" 1 = some 999 ∧
    bestMovesOf (completeAll scenarioStore "1.2.3.4" 1
      [{ moves := 0, time := none, now := 5 }]) "1.2.3.4" 1 ≠ some 0 := by
  decide

/-! ### Completion timestamp -/

/-- C2 (amended): every successful recordCompletion at clock time `now` leaves the
record completed with completion timestamp `now`, whatever the record held before;
the timestamp of an earlier completion survives only when the clock readings agree. -/
theorem completedAt_is_latest_completion (s : Store) (ip : String) (pid : Nat)
    (moves time : Option Nat) (now : Nat) (hp : findPuzzle s pid ≠ none) :
    ∃ r, findProgress (recordCompletion s ip pid true moves time now).2 ip pid = some r ∧
      r.completed = true ∧ r.completedAt = some now := by
  cases h : findPuzzle s pid with
  | none => exact absurd h hp
  | some puzzle =>
    refine ⟨_, findProgress_recordCompletion s ip pid moves time now puzzle h, ?_, ?_⟩
    · rw [completed_bestTimeUpdate]; rfl
    · rw [completedAt_bestTimeUpdate]; rfl

/-- Witness for C2: a second completion at clock time 7 of a record completed at 5. -/
theorem completedAt_is_latest_completion_witness :
    ∃ r, findProgress (recordCompletion
        (recordCompletion scenarioStore "1.2.3.4" 1 true (some 12) none 5).2
        "1.2.3.4" 1 true (some 9) none 7).2 "1.2.3.4" 1 = some r ∧
      r.completed = true ∧ r.completedAt = some 7 :=
  completedAt_is_latest_completion
    (recordCompletion scenarioStore "1.2.3.4" 1 true (some 12) none 5).2
    "1.2.3.4" 1 (some 9) none 7 (by decide)

/-- C2 (counterexample): the record completed at clock time 5 has completion timestamp 7
after a further successful completion at clock time 7. -/
theorem completedAt_overwritten_counterexample :
    (findProgress (recordCompletion scenarioStore "1.2.3.4" 1 true (some 12) none 5).2
        "1.2.3.4" 1).map (fun r => (r.completed, r.completedAt)) = some (true, some 5) ∧
    (findProgress (recordCompletion
        (recordCompletion scenarioStore "1.2.3.4" 1 true (some 12) none 5).2
        "1.2.3.4" 1 true (some 9) none 7).2 "1.2.3.4" 1).map (fun r => r.completedAt)
      = some (some 7) := by
  decide

/-! ### Recommendations -/

theorem orderedInsert_of_forall_le {α : Type} (r : α → α → Prop) [DecidableRel r] (a : α)
    (l : List α) (h : ∀ c ∈ l, r a c) : l.orderedInsert r a = a :: l := by
  cases l with
  | nil => rfl
  | cons b l => simp [List.orderedInsert, h b (List.mem_cons_self _ _)]

theorem filter_orderedInsert {α : Type} (r : α → α → Prop) [DecidableRel r] [IsTrans α r]
    (p : α → Bool) (a : α) (l : List α) (hl : l.Sorted r) :
    (l.orderedInsert r a).filter p =
      if p a then (l.filter p).orderedInsert r a else l.filter p := by
  induction l with
  | nil => by_cases hp : p a <;> simp [hp]
  | cons b l ih =>
    have hl' : l.Sorted r := hl.of_cons
    have hb : ∀ c ∈ l, r b c := fun c hc => List.rel_of_sorted_cons hl c hc
    by_cases hab : r a b
    · rw [List.orderedInsert_of_le _ _ hab]
      by_cases hpa : p a = true
      · have hall : ∀ c ∈ (b :: l).filter p, r a c := by
          intro c hc
          rcases List.mem_cons.mp (List.mem_filter.mp hc).1 with h | h
          · exact h ▸ hab
          · exact IsTrans.trans a b c hab (hb c h)
        rw [if_pos hpa, orderedInsert_of_forall_le r a _ hall, List.filter_cons_of_pos hpa]
      · rw [if_neg hpa, List.filter_cons_of_neg hpa]
    · have hins : (b :: l).orderedInsert r a = b :: l.orderedInsert r a := by
        simp [List.orderedInsert, hab]
      rw [hins]
      by_cases hpb : p b = true
      · rw [List.filter_cons_of_pos hpb, ih hl', List.filter_cons_of_pos hpb]
        by_cases hpa : p a = true
        · simp [hpa, List.orderedInsert, hab]
        · simp [hpa]
      · rw [List.filter_cons_of_neg hpb, ih hl', List.filter_cons_of_neg hpb]

theorem filter_insertionSort {α : Type} (r : α → α → Prop) [DecidableRel r] [IsTrans α r]
    [IsTotal α r] (p : α → Bool) (l : List α) :
    (l.insertionSort r).filter p = (l.filter p).insertionSort r := by
  induction l with
  | nil => rfl
  | cons a l ih =>
    rw [List.insertionSort, filter_orderedInsert r p a _ (List.sorted_insertionSort r l), ih]
    by_cases hpa : p a = true
    · rw [if_pos hpa, List.filter_cons_of_pos hpa, List.insertionSort]
    · rw [if_neg hpa, List.filter_cons_of_neg hpa]

theorem take_filter_of_forall {α : Type} (p : α → Bool) :
    ∀ (n : Nat) (l : List α), (∀ x ∈ l.take n, p x = true) →
      (l.filter p).take n = l.take n
  | 0, _, _ => by simp
  | _ + 1, [], _ => by simp
  | n + 1, x :: l, h => by
    have hx : p x = true := h x (by simp)
    have ht : ∀ y ∈ l.take n, p y = true := fun y hy => h y (by simp [hy])
    rw [List.filter_cons_of_pos hx, List.take_succ_cons, List.take_succ_cons,
      take_filter_of_forall p n l ht]

theorem filter_take_prefix {α : Type} (p : α → Bool) (n : Nat) (l : List α) :
    (l.take n).filter p <+: (l.filter p).take n :=
  List.prefix_take_iff.mpr
    ⟨List.IsPrefix.filter p (List.take_prefix n l),
      le_trans (List.length_filter_le p _) (List.length_take_le n l)⟩

theorem filterPublic_populate (s : Store) :
    ∀ l : List Puzzle, (∀ p ∈ l, findCollection s p.collectionId ≠ none) →
      filterPublic (l.map (populate s)) = Except.ok (l.filter (inPublicCollection s))
  | [], _ => rfl
  | p :: l, h => by
    have ih := filterPublic_populate s l (fun q hq => h q (List.mem_cons_of_mem _ hq))
    cases hc : findCollection s p.collectionId with
    | none => exact absurd hc (h p (List.mem_cons_self _ _))
    | some c =>
      simp only [List.map_cons, populate, hc, filterPublic]
      rw [ih]
      cases hpriv : c.isPrivate <;> simp [List.filter_cons, inPublicCollection, hc, hpriv]

theorem filterPublic_populate_ok (s : Store) :
    ∀ (l : List Puzzle) (r : List Puzzle), filterPublic (l.map (populate s)) = Except.ok r →
      r = l.filter (inPublicCollection s) ∧ ∀ p ∈ l, findCollection s p.collectionId ≠ none
  | [], r, h => by
    simp only [List.map_nil, filterPublic, Except.ok.injEq] at h
    simp [← h]
  | p :: l, r, h => by
    cases hc : findCollection s p.collectionId with
    | none => simp [populate, hc, filterPublic] at h
    | some c =>
      simp only [List.map_cons, populate, hc, filterPublic] at h
      cases hrest : filterPublic (l.map (populate s)) with
      | error e =>
        simp [hrest] at h
      | ok r' =>
        obtain ⟨hr', hall⟩ := filterPublic_populate_ok s l r' hrest
        simp only [hrest, Except.ok.injEq] at h
        refine ⟨?_, ?_⟩
        · rw [← h, hr']
          cases hpriv : c.isPrivate <;> simp [List.filter_cons, inPublicCollection, hc, hpriv]
        · intro q hq
          rcases List.mem_cons.mp hq with h1 | h1
          · rw [h1, hc]; simp
          · exact hall q h1

theorem mem_candidates_of_mem_recommend (s : Store) (ip : String) (r : List Puzzle)
    (h : recommend s ip = Except.ok r) (p : Puzzle) (hp : p ∈ r) :
    p ∈ candidates s ip ∧ inPublicCollection s p = true := by
  obtain ⟨hr, _⟩ := filterPublic_populate_ok s _ r h
  rw [hr] at hp
  obtain ⟨hmem, hpub⟩ := List.mem_filter.mp hp
  exact ⟨(List.perm_insertionSort popularityOrder (candidates s ip)).subset
    (List.mem_of_mem_take hmem), hpub⟩

/-- C3: no puzzle returned by recommend belongs to a private collection (its collection
exists and is public), and none has a completed Progress Record of the identity. -/
theorem recommend_excludes_private_and_completed (s : Store) (ip : String)
    (r : List Puzzle) (h : recommend s ip = Except.ok r) :
    ∀ p ∈ r,
      (∃ c, findCollection s p.collectionId = some c ∧ c.isPrivate = false) ∧
      (∀ rec ∈ s.progress, rec.ip = ip → rec.puzzleId = p.id → rec.completed = false) := by
  intro p hp
  obtain ⟨hcand, hpub⟩ := mem_candidates_of_mem_recommend s ip r h p hp
  refine ⟨?_, ?_⟩
  · unfold inPublicCollection at hpub
    cases hc : findCollection s p.collectionId with
    | none => simp [hc] at hpub
    | some c => exact ⟨c, rfl, by simpa [hc] using hpub⟩
  · intro rec hrec hip hpid
    have hq : matchesQuery s ip p = true := (List.mem_filter.mp hcand).2
    by_contra hcompl
    have hmem : p.id ∈ completedPuzzleIds s ip := by
      unfold completedPuzzleIds userProgress
      refine List.mem_map.mpr ⟨rec, ?_, hpid⟩
      simp [List.mem_filter, hrec, hip]
      simpa using hcompl
    simp [matchesQuery, hmem] at hq

/-- Witness for C3: in `rankingStore`, after the visitor completed puzzle 1, the nine
puzzles returned are public and not completed. -/
theorem recommend_excludes_private_and_completed_witness :
    recommend (recordCompletion rankingStore "1.2.3.4" 1 true (some 5) none 1).2 "1.2.3.4" =
      Except.ok ((List.range 9).map (fun i => mkPuzzle (i + 2) 1 (9 - i))) ∧
    ∀ p ∈ (List.range 9).map (fun i => mkPuzzle (i + 2) 1 (9 - i)),
      (∃ c, findCollection (recordCompletion rankingStore "1.2.3.4" 1 true (some 5) none 1).2
          p.collectionId = some c ∧ c.isPrivate = false) ∧
      (∀ rec ∈ (recordCompletion rankingStore "1.2.3.4" 1 true (some 5) none 1).2.progress,
        rec.ip = "1.2.3.4" → rec.puzzleId = p.id → rec.completed = false) :=
  ⟨rfl, recommend_excludes_private_and_completed
    (recordCompletion rankingStore "1.2.3.4" 1 true (some 5) none 1).2 "1.2.3.4" _ rfl⟩

theorem recommendSpec_eq (s : Store) (ip : String) (limit : Nat) :
    recommendSpec s ip limit =
      ((rankedCandidates s ip).filter (inPublicCollection s)).take limit := by
  unfold recommendSpec rankedCandidates
  rw [filter_insertionSort]

/-- C4 (amended): recommend sorts the qualifying, not-yet-completed candidates of all
collections by views descending then likes descending, truncates to 10, and only then
drops the candidates of private collections. The result is the public part of the first
10 ranked candidates: at most 10 puzzles, a prefix of the first min(10, n) public
candidates in that order, and equal to them when none of the first 10 ranked candidates
is private. -/
theorem recommend_truncates_before_filtering (s : Store) (ip : String) :
    (rankedCandidates s ip).Perm (candidates s ip) ∧
    (rankedCandidates s ip).Sorted popularityOrder ∧
    ((∀ p ∈ (rankedCandidates s ip).take 10, findCollection s p.collectionId ≠ none) →
      recommend s ip =
        Except.ok (((rankedCandidates s ip).take 10).filter (inPublicCollection s))) ∧
    (∀ r, recommend s ip = Except.ok r →
      r = ((rankedCandidates s ip).take 10).filter (inPublicCollection s) ∧
      r.length ≤ 10 ∧
      r <+: recommendSpec s ip 10 ∧
      ((∀ p ∈ (rankedCandidates s ip).take 10, inPublicCollection s p = true) →
        r = recommendSpec s ip 10 ∧
        r.length = min 10 ((candidates s ip).filter (inPublicCollection s)).length)) := by
  refine ⟨List.perm_insertionSort _ _, List.sorted_insertionSort _ _,
    fun h => filterPublic_populate s _ h, ?_⟩
  intro r hr
  obtain ⟨hr', _⟩ := filterPublic_populate_ok s _ r hr
  refine ⟨hr', ?_, ?_, ?_⟩
  · rw [hr']
    exact le_trans (List.length_filter_le _ _) (List.length_take_le 10 _)
  · rw [hr', recommendSpec_eq]
    exact filter_take_prefix _ _ _
  · intro hall
    have h1 : r = recommendSpec s ip 10 := by
      rw [hr', recommendSpec_eq, take_filter_of_forall _ _ _ hall]
      exact List.filter_eq_self.mpr hall
    refine ⟨h1, ?_⟩
    rw [h1, recommendSpec, List.length_take,
      (List.perm_insertionSort popularityOrder _).length_eq]

/-- Witness for C4: in `rankingStore` the result is the public part of the first ten
ranked candidates, nine puzzles, a prefix of the ten public candidates. -/
theorem recommend_truncates_before_filtering_witness :
    recommend rankingStore "1.2.3.4" =
      Except.ok ((List.range 9).map (fun i => mkPuzzle (i + 1) 1 (10 - i))) ∧
    (List.range 9).map (fun i => mkPuzzle (i + 1) 1 (10 - i)) =
      ((rankedCandidates rankingStore "1.2.3.4").take 10).filter
        (inPublicCollection rankingStore) ∧
    ((List.range 9).map (fun i => mkPuzzle (i + 1) 1 (10 - i))).length ≤ 10 ∧
    (List.range 9).map (fun i => mkPuzzle (i + 1) 1 (10 - i)) <+:
      recommendSpec rankingStore "1.2.3.4" 10 :=
  ⟨rfl,
    ((recommend_truncates_before_filtering rankingStore "1.2.3.4").2.2.2 _ rfl).1,
    ((recommend_truncates_before_filtering rankingStore "1.2.3.4").2.2.2 _ rfl).2.1,
    ((recommend_truncates_before_filtering rankingStore "1.2.3.4").2.2.2 _ rfl).2.2.1⟩

/-- C4 (counterexample): `rankingStore` has ten qualifying public candidates, yet
recommend returns nine puzzles, because the most viewed candidate is private and is
dropped only after the truncation to ten; filtering first would return ten. -/
theorem recommend_returns_nine_counterexample :
    ((candidates rankingStore "1.2.3.4").filter (inPublicCollection rankingStore)).length = 10 ∧
    (recommendSpec rankingStore "1.2.3.4" 10).length = 10 ∧
    ∃ r, recommend rankingStore "1.2.3.4" = Except.ok r ∧ r.length = 9 ∧
      r ≠ recommendSpec rankingStore "1.2.3.4" 10 :=
  ⟨by decide, by decide, _, rfl, by decide, by decide⟩

/-! ### Collection completion -/

theorem mem_foldl_setToArray (x : Nat) (xs : List Nat) :
    ∀ acc : List Nat,
      x ∈ xs.foldl (fun acc x => if acc.contains x then acc else acc ++ [x]) acc ↔
        x ∈ acc ∨ x ∈ xs := by
  induction xs with
  | nil => intro acc; simp
  | cons y ys ih =>
    intro acc
    rw [List.foldl_cons, ih]
    by_cases hy : acc.contains y = true
    · have hy' : y ∈ acc := by simpa using hy
      simp only [hy, if_true, List.mem_cons]
      constructor
      · rintro (h | h)
        · exact Or.inl h
        · exact Or.inr (Or.inr h)
      · rintro (h | h | h)
        · exact Or.inl h
        · exact Or.inl (h ▸ hy')
        · exact Or.inr h
    · simp only [hy, List.mem_append, List.mem_singleton, List.mem_cons]
      simp only [Bool.false_eq_true, if_false, List.mem_append, List.mem_singleton]
      tauto

theorem mem_setToArray (x : Nat) (xs : List Nat) : x ∈ setToArray xs ↔ x ∈ xs := by
  unfold setToArray
  rw [mem_foldl_setToArray]
  simp

theorem isCollectionComplete_iff (s : Store) (ip : String) (cid : Nat) :
    isCollectionComplete s ip cid = true ↔
      completedInCollection s ip cid = countPuzzles s cid ∧ countPuzzles s cid > 0 := by
  unfold isCollectionComplete collectionsCompleted completedInCollection
  rw [List.contains_iff_exists_mem_beq]
  simp only [List.mem_filter, mem_setToArray, List.mem_map,
    Bool.and_eq_true, beq_iff_eq, decide_eq_true_eq]
  constructor
  · rintro ⟨c, ⟨_, h1, h2⟩, rfl⟩
    exact ⟨h1, h2⟩
  · rintro ⟨h1, h2⟩
    refine ⟨cid, ⟨?_, h1, h2⟩, rfl⟩
    rw [← h1] at h2
    obtain ⟨r, hr⟩ := List.exists_mem_of_length_pos h2
    have hr' := (List.mem_filter.mp (List.mem_filter.mp hr).1)
    exact ⟨r, hr'.1, by simpa using hr'.2⟩

theorem mem_completed_records (s : Store) (ip : String) (cid : Nat) (r : UserProgress) :
    r ∈ ((userProgress s ip).filter (fun p => p.collectionId == cid)).filter
        (fun p => p.completed) ↔
      r ∈ s.progress ∧ r.ip = ip ∧ r.collectionId = cid ∧ r.completed = true := by
  simp only [userProgress, List.mem_filter, beq_iff_eq]
  tauto

theorem completedInCollection_eq_spec (s : Store) (ip : String) (cid : Nat)
    (hkey : s.progress.Pairwise (fun a b => ¬ (a.ip = b.ip ∧ a.puzzleId = b.puzzleId)))
    (hid : (s.puzzles.map (fun p => p.id)).Nodup)
    (hcons : ∀ r ∈ s.progress, r.ip = ip → r.completed = true →
      ∃ p ∈ s.puzzles, p.id = r.puzzleId ∧ p.collectionId = r.collectionId) :
    completedInCollection s ip cid = (completedPuzzlesInCollection s ip cid).length := by
  have hsub : List.Sublist (((userProgress s ip).filter (fun p => p.collectionId == cid)).filter
      (fun p => p.completed)) s.progress :=
    (List.filter_sublist _).trans ((List.filter_sublist _).trans (List.filter_sublist _))
  have hnodup : ((((userProgress s ip).filter (fun p => p.collectionId == cid)).filter
      (fun p => p.completed)).map (fun r => r.puzzleId)).Nodup := by
    rw [List.Nodup, List.pairwise_map]
    refine List.Pairwise.imp_of_mem ?_ (hkey.sublist hsub)
    intro a b ha hb hab heq
    have ha' := (mem_completed_records s ip cid a).mp ha
    have hb' := (mem_completed_records s ip cid b).mp hb
    exact hab ⟨ha'.2.1.trans hb'.2.1.symm, heq⟩
  have hperm : ((((userProgress s ip).filter (fun p => p.collectionId == cid)).filter
      (fun p => p.completed)).map (fun r => r.puzzleId)).Perm
      (completedPuzzlesInCollection s ip cid) := by
    refine (List.perm_ext_iff_of_nodup hnodup (List.nodup_dedup _)).mpr ?_
    intro x
    simp only [completedPuzzlesInCollection, List.mem_dedup, List.mem_map,
      mem_completed_records]
    simp only [List.mem_filter, Bool.and_eq_true, beq_iff_eq, List.any_eq_true]
    constructor
    · rintro ⟨r, ⟨hr, hip, hcid, hcompl⟩, rfl⟩
      obtain ⟨p, hp, hpid, hpc⟩ := hcons r hr hip hcompl
      exact ⟨p, ⟨hp, hpc.trans hcid, r, hr, ⟨hip, hpid.symm⟩, hcompl⟩, hpid⟩
    · rintro ⟨p, ⟨hp, hpc, r, hr, ⟨hip, hpid⟩, hcompl⟩, rfl⟩
      obtain ⟨q, hq, hqid, hqc⟩ := hcons r hr hip hcompl
      have hqp : q = p :=
        List.inj_on_of_nodup_map hid hq hp (hqid.trans hpid)
      exact ⟨r, ⟨hr, hip, by rw [← hqc, hqp, hpc], hcompl⟩, hpid⟩
  unfold completedInCollection
  rw [← hperm.length_eq, List.length_map]


/-- C5 (amended): a collection is counted as complete for an identity iff the number of
the identity's completed Progress Records that carry the collection equals the number of
puzzles currently in the collection and that number is greater than zero. When progress
keys (identity, puzzle) and puzzle identities are unique and every completed record of
the identity refers to an existing puzzle that is still in the collection the record
carries, this is the number of distinct puzzles currently in the collection for which
the identity has a completed record. -/
theorem isCollectionComplete_iff_completed_records (s : Store) (ip : String) (cid : Nat) :
    (isCollectionComplete s ip cid = true ↔
      completedInCollection s ip cid = countPuzzles s cid ∧ countPuzzles s cid > 0) ∧
    (s.progress.Pairwise (fun a b => ¬ (a.ip = b.ip ∧ a.puzzleId = b.puzzleId)) →
      (s.puzzles.map (fun p => p.id)).Nodup →
      (∀ r ∈ s.progress, r.ip = ip → r.completed = true →
        ∃ p ∈ s.puzzles, p.id = r.puzzleId ∧ p.collectionId = r.collectionId) →
      (isCollectionComplete s ip cid = true ↔
        (completedPuzzlesInCollection s ip cid).length = countPuzzles s cid ∧
          countPuzzles s cid > 0)) := by
  refine ⟨isCollectionComplete_iff s ip cid, fun hkey hid hcons => ?_⟩
  rw [isCollectionComplete_iff, completedInCollection_eq_spec s ip cid hkey hid hcons]

/-- Witness for C5: with both puzzles of collection 1 completed the store is consistent
and the collection is counted as complete. -/
theorem isCollectionComplete_iff_completed_records_witness :
    isCollectionComplete bothCompletedStore "1.2.3.4" 1 = true ∧
    (completedPuzzlesInCollection bothCompletedStore "1.2.3.4" 1).length =
      countPuzzles bothCompletedStore 1 ∧
    countPuzzles bothCompletedStore 1 > 0 :=
  ⟨by decide,
    ((isCollectionComplete_iff_completed_records bothCompletedStore "1.2.3.4" 1).2
      (by decide) (by decide) (by decide)).mp (by decide)⟩

/-- C5 (counterexample): in `movedPuzzleStore` collection 1 holds only puzzle 2, which the
visitor has not completed, so no puzzle currently in the collection is completed; yet
the stale record of the moved puzzle 1 makes the collection count as complete. -/
theorem isCollectionComplete_stale_record_counterexample :
    countPuzzles movedPuzzleStore 1 = 1 ∧
    completedPuzzlesInCollection movedPuzzleStore "1.2.3.4" 1 = [] ∧
    isCollectionCompleteSpec movedPuzzleStore "1.2.3.4" 1 = false ∧
    isCollectionComplete movedPuzzleStore "1.2.3.4" 1 = true := by
  decide

/-- C6: a collection with zero puzzles is never counted as complete, for any identity and
whatever Progress Records exist. -/
theorem isCollectionComplete_false_of_no_puzzles (s : Store) (ip : String) (cid : Nat)
    (h : countPuzzles s cid = 0) : isCollectionComplete s ip cid = false := by
  cases hc : isCollectionComplete s ip cid with
  | false => rfl
  | true =>
    have h2 := ((isCollectionComplete_iff s ip cid).mp hc).2
    omega

/-- Witness for C6: collection 2 of `twoPuzzleStore` is empty; even with a completed
record that carries collection 2 it is not counted as complete. -/
theorem isCollectionComplete_false_of_no_puzzles_witness :
    countPuzzles { twoPuzzleStore with progress :=
        [{ freshProgress "1.2.3.4" 1 2 with completed := true }] } 2 = 0 ∧
    isCollectionComplete { twoPuzzleStore with progress :=
        [{ freshProgress "1.2.3.4" 1 2 with completed := true }] } "1.2.3.4" 2 = false :=
  ⟨by decide, isCollectionComplete_false_of_no_puzzles _ "1.2.3.4" 2 (by decide)⟩

/-! ### Achievements -/

theorem categoryTitle_ne_perfect (c : String) : categoryTitle c ≠ "Perfect Solver" := by
  intro h
  have h1 : " Master".data <:+ (categoryTitle c).data := by
    unfold categoryTitle
    rw [String.data_append]
    exact List.suffix_append _ _
  rw [h] at h1
  exact absurd h1 (by decide)

theorem milestoneTitle_ne_perfect (m : Nat) :
    (milestoneAchievement m).title ≠ "Perfect Solver" := by
  intro h
  have h1 : " Puzzles Solved".data <:+ (milestoneAchievement m).title.data := by
    unfold milestoneAchievement
    simp only [String.data_append]
    exact List.suffix_append _ _
  rw [h] at h1
  exact absurd h1 (by decide)

theorem mem_computeAchievements (s : Store) (ip : String) (a : Achievement) :
    a ∈ computeAchievements s ip ↔
      (∃ m ∈ solvingMilestones, m ≤ totalSolved s ip ∧ a = milestoneAchievement m) ∨
      ((10 ≤ totalAttempts s ip ∧ totalSolved s ip = totalAttempts s ip) ∧
        a = perfectAchievement) ∨
      (∃ e ∈ categoryProgress s ip, 10 ≤ e.2 ∧ a = categoryAchievement e.1 e.2) := by
  unfold computeAchievements
  simp only [List.mem_append, List.mem_map, List.mem_filter, decide_eq_true_eq, ge_iff_le]
  constructor
  · rintro ((⟨m, ⟨hm, hle⟩, rfl⟩ | h) | ⟨e, ⟨he, hle⟩, rfl⟩)
    · exact Or.inl ⟨m, hm, hle, rfl⟩
    · split at h
      · next hc => exact Or.inr (Or.inl ⟨hc, by simpa using h⟩)
      · simp at h
    · exact Or.inr (Or.inr ⟨e, he, hle, rfl⟩)
  · rintro (⟨m, hm, hle, rfl⟩ | ⟨hc, rfl⟩ | ⟨e, he, hle, rfl⟩)
    · exact Or.inl (Or.inl ⟨m, ⟨hm, hle⟩, rfl⟩)
    · exact Or.inl (Or.inr (by simp [hc]))
    · exact Or.inr ⟨e, ⟨he, hle⟩, rfl⟩

theorem foldl_add_attempts (l : List UserProgress) :
    ∀ init : Nat, l.foldl (fun sum p => sum + p.attempts) init =
      init + (l.map (fun p => p.attempts)).sum := by
  induction l with
  | nil => intro init; simp
  | cons x xs ih => intro init; simp [ih, Nat.add_assoc]

/-- C7: computeAchievements contains the "Perfect Solver" achievement (the descriptor of
the handler, and equally any descriptor with that title) if and only if total attempts,
the sum of the attempt counts, is at least 10 and equals total completions, the number
of completed records; it is never present when total attempts is below 10. -/
theorem perfectSolver_iff (s : Store) (ip : String) :
    ((∃ a ∈ computeAchievements s ip, a.title = "Perfect Solver") ↔
      10 ≤ totalAttempts s ip ∧ totalAttempts s ip = totalSolved s ip) ∧
    (perfectAchievement ∈ computeAchievements s ip ↔
      10 ≤ totalAttempts s ip ∧ totalAttempts s ip = totalSolved s ip) ∧
    (totalAttempts s ip < 10 → ∀ a ∈ computeAchievements s ip, a.title ≠ "Perfect Solver") ∧
    totalAttempts s ip = ((userProgress s ip).map (fun p => p.attempts)).sum ∧
    totalSolved s ip = (userProgress s ip).countP (fun p => p.completed) := by
  have key : ∀ a ∈ computeAchievements s ip, a.title = "Perfect Solver" →
      10 ≤ totalAttempts s ip ∧ totalAttempts s ip = totalSolved s ip := by
    intro a ha htitle
    rcases (mem_computeAchievements s ip a).mp ha with
      ⟨m, _, _, rfl⟩ | ⟨hc, _⟩ | ⟨e, _, _, rfl⟩
    · exact absurd htitle (milestoneTitle_ne_perfect m)
    · exact ⟨hc.1, hc.2.symm⟩
    · exact absurd htitle (categoryTitle_ne_perfect e.1)
  have back : 10 ≤ totalAttempts s ip ∧ totalAttempts s ip = totalSolved s ip →
      perfectAchievement ∈ computeAchievements s ip := fun h =>
    (mem_computeAchievements s ip _).mpr (Or.inr (Or.inl ⟨⟨h.1, h.2.symm⟩, rfl⟩))
  refine ⟨⟨fun ⟨a, ha, ht⟩ => key a ha ht, fun h => ⟨_, back h, rfl⟩⟩,
    ⟨fun h => key _ h rfl, back⟩, ?_, ?_, ?_⟩
  · intro hlt a ha ht
    have := (key a ha ht).1
    omega
  · unfold totalAttempts
    rw [foldl_add_attempts]; simp
  · unfold totalSolved
    rw [List.countP_eq_length_filter]

theorem milestoneAchievement_ne_perfect (m : Nat) :
    milestoneAchievement m ≠ perfectAchievement := by
  intro h
  have h1 : "solving" = "perfect" := congrArg Achievement.type h
  exact absurd h1 (by decide)

theorem milestoneAchievement_ne_category (m : Nat) (c : String) (n : Nat) :
    milestoneAchievement m ≠ categoryAchievement c n := by
  intro h
  have h1 : "solving" = "category" := congrArg Achievement.type h
  exact absurd h1 (by decide)

/-- C8 (failing input): after `unevenCalls` the visitor has 10 attempts and 10 completed
puzzles, so "Perfect Solver" is unlocked, although puzzle 0 was attempted twice and
never completed. -/
theorem perfectSolver_despite_failed_attempts :
    perfectAchievement ∈ computeAchievements (applyCalls elevenPuzzleStore unevenCalls) "1.2.3.4" ∧
    totalAttempts (applyCalls elevenPuzzleStore unevenCalls) "1.2.3.4" = 10 ∧
    totalSolved (applyCalls elevenPuzzleStore unevenCalls) "1.2.3.4" = 10 ∧
    (findProgress (applyCalls elevenPuzzleStore unevenCalls) "1.2.3.4" 0).map
      (fun r => (r.attempts, r.completed)) = some (2, false) := by
  decide

theorem solving_filter_milestones (l : List Nat) :
    (l.map milestoneAchievement).filter (fun a => a.type == "solving") =
      l.map milestoneAchievement := by
  induction l with
  | nil => rfl
  | cons x xs ih => simp [List.filter_cons, milestoneAchievement] at ih ⊢

theorem solving_filter_category (l : List (String × Nat)) :
    (l.map (fun e => categoryAchievement e.1 e.2)).filter (fun a => a.type == "solving") = [] := by
  induction l with
  | nil => rfl
  | cons x xs ih =>
    rw [List.map_cons, List.filter_cons_of_neg (by simp [categoryAchievement]), ih]

/-- C9: the 'solving' achievements returned by computeAchievements are exactly the
descriptors of the thresholds t of [1, 5, 10, 25, 50, 100, 200, 500] with t at most the
total completed-puzzle count, one each and in ascending threshold order; the descriptor
of a threshold above the count is not returned. -/
theorem milestones_are_reached_thresholds (s : Store) (ip : String) :
    (computeAchievements s ip).filter (fun a => a.type == "solving") =
      (solvingMilestones.filter (fun t => decide (t ≤ totalSolved s ip))).map
        milestoneAchievement ∧
    solvingMilestones = [1, 5, 10, 25, 50, 100, 200, 500] ∧
    solvingMilestones.Sorted (fun a b => a < b) ∧
    (∀ t ∈ solvingMilestones,
      (milestoneAchievement t ∈ computeAchievements s ip ↔ t ≤ totalSolved s ip)) := by
  refine ⟨?_, rfl, by decide, ?_⟩
  · unfold computeAchievements
    rw [List.filter_append, List.filter_append, solving_filter_milestones,
      solving_filter_category]
    split <;> simp [perfectAchievement]
  · intro t ht
    rw [mem_computeAchievements]
    constructor
    · rintro (⟨m, hm, hle, heq⟩ | ⟨_, heq⟩ | ⟨e, _, _, heq⟩)
      · have hinj : ∀ t ∈ solvingMilestones, ∀ m ∈ solvingMilestones,
            milestoneAchievement t = milestoneAchievement m → t = m := by decide
        rw [hinj t ht m hm heq]; exact hle
      · exact absurd heq (milestoneAchievement_ne_perfect t)
      · exact absurd heq (milestoneAchievement_ne_category t e.1 e.2)
    · intro hle
      exact Or.inl ⟨t, ht, hle, rfl⟩

theorem countP_upsertFirst_le {α : Type} (q p : α → Bool) (f : α → α) (fresh : α)
    (hf : ∀ x, q x = true → q (f x) = true) (l : List α) :
    l.countP q ≤ (upsertFirst p f fresh l).countP q := by
  induction l with
  | nil => simp
  | cons x xs ih =>
    by_cases hp : p x = true
    · simp only [upsertFirst, hp, if_true, List.countP_cons]
      by_cases hq : q x = true
      · simp [hq, hf x hq]
      · simp [hq]
    · simp only [upsertFirst, hp, List.countP_cons]
      simp only [Bool.false_eq_true, if_false, List.countP_cons]
      omega

theorem totalSolved_eq_countP (s : Store) (ip : String) :
    totalSolved s ip = s.progress.countP (fun r => r.ip == ip && r.completed) := by
  unfold totalSolved userProgress
  rw [List.filter_filter, List.countP_eq_length_filter]
  congr 1
  apply List.filter_congr
  intro x _
  exact Bool.and_comm _ _

theorem totalSolved_recordCompletion (s : Store) (ip ip' : String) (pid : Nat) (solved : Bool)
    (moves time : Option Nat) (now : Nat) :
    totalSolved s ip ≤ totalSolved (recordCompletion s ip' pid solved moves time now).2 ip := by
  unfold recordCompletion
  cases findPuzzle s pid with
  | none => exact le_refl _
  | some puzzle =>
    cases solved with
    | false => exact le_refl _
    | true =>
      simp only [if_true, totalSolved_eq_countP]
      apply countP_upsertFirst_le
      intro x hx
      simp only [Bool.and_eq_true, beq_iff_eq] at hx ⊢
      rw [ip_bestTimeUpdate, completed_bestTimeUpdate]
      exact ⟨hx.1, rfl⟩

/-- C10: a milestone achievement that computeAchievements returns for an identity is
still returned for that identity after any further recordCompletion call, by any
identity on any puzzle. -/
theorem milestone_kept_after_completion (s : Store) (ip ip' : String) (pid : Nat)
    (solved : Bool) (moves time : Option Nat) (now : Nat) (k : Nat)
    (h : milestoneAchievement k ∈ computeAchievements s ip) :
    milestoneAchievement k ∈
      computeAchievements (recordCompletion s ip' pid solved moves time now).2 ip := by
  rw [mem_computeAchievements] at h ⊢
  rcases h with ⟨m, hm, hle, heq⟩ | ⟨_, heq⟩ | ⟨e, _, _, heq⟩
  · exact Or.inl ⟨m, hm,
      le_trans hle (totalSolved_recordCompletion s ip ip' pid solved moves time now), heq⟩
  · exact absurd heq (milestoneAchievement_ne_perfect k)
  · exact absurd heq (milestoneAchievement_ne_category k e.1 e.2)

/-- Witness for C10: the first milestone, unlocked by one completion, is kept after a
completion by another visitor. -/
theorem milestone_kept_after_completion_witness :
    milestoneAchievement 1 ∈ computeAchievements
      (recordCompletion scenarioStore "1.2.3.4" 1 true (some 12) none 5).2 "1.2.3.4" ∧
    milestoneAchievement 1 ∈ computeAchievements
      (recordCompletion (recordCompletion scenarioStore "1.2.3.4" 1 true (some 12) none 5).2
        "5.6.7.8" 1 true (some 3) none 6).2 "1.2.3.4" :=
  ⟨by decide, milestone_kept_after_completion
    (recordCompletion scenarioStore "1.2.3.4" 1 true (some 12) none 5).2
    "1.2.3.4" "5.6.7.8" 1 true (some 3) none 6 1 (by decide)⟩

/-! ### Preferred category -/

theorem lookup_bump (acc : List (String × Nat)) (k c : String) :
    (bump acc k).lookup c =
      if c = k then some ((acc.lookup k).getD 0 + 1) else acc.lookup c := by
  induction acc with
  | nil =>
    by_cases h : c = k
    · simp [bump, List.lookup, h]
    · have hb : (c == k) = false := by simpa using h
      simp [bump, List.lookup, h, hb]
  | cons e rest ih =>
    obtain ⟨k', n⟩ := e
    by_cases hk : k' = k
    · subst hk
      by_cases h : c = k'
      · simp [bump, List.lookup, h]
      · have hb : (c == k') = false := by simpa using h
        simp [bump, List.lookup, h, hb]
    · have hk' : (k' == k) = false := by simpa using hk
      have hk2 : (k == k') = false := by simpa using fun h => hk h.symm
      simp only [bump, hk', Bool.false_eq_true, if_false, List.lookup]
      by_cases h : c = k
      · subst h
        simp [hk2, ih]
      · by_cases h2 : c = k'
        · subst h2
          simp [hk]
        · have hb : (c == k') = false := by simpa using h2
          simp [hb, ih, h]

theorem lookup_foldl_bump (l : List String) (c : String) :
    ∀ acc : List (String × Nat),
      ((l.foldl bump acc).lookup c).getD 0 = (acc.lookup c).getD 0 + l.count c := by
  induction l with
  | nil => intro acc; simp
  | cons k l ih =>
    intro acc
    rw [List.foldl_cons, ih, lookup_bump]
    by_cases h : c = k
    · subst h; simp; omega
    · have : ¬ k = c := fun h' => h h'.symm
      simp [h, List.count_cons, this]

theorem lookup_foldl_bump_isSome (l : List String) (c : String) :
    ∀ acc : List (String × Nat),
      ((l.foldl bump acc).lookup c).isSome = ((acc.lookup c).isSome || decide (c ∈ l)) := by
  induction l with
  | nil => intro acc; simp
  | cons k l ih =>
    intro acc
    rw [List.foldl_cons, ih, lookup_bump]
    by_cases h : c = k
    · subst h; simp
    · simp [h]

theorem keys_bump (acc : List (String × Nat)) (k : String) :
    (bump acc k).map (fun e => e.1) =
      if (acc.map (fun e => e.1)).contains k then acc.map (fun e => e.1)
      else acc.map (fun e => e.1) ++ [k] := by
  induction acc with
  | nil => simp [bump]
  | cons e rest ih =>
    obtain ⟨k', n⟩ := e
    by_cases hk : k' = k
    · subst hk
      simp [bump]
    · have hk' : (k' == k) = false := by simpa using hk
      have hk2 : ¬ k = k' := fun h => hk h.symm
      simp only [bump, hk', Bool.false_eq_true, if_false, List.map_cons, ih]
      by_cases hm : (rest.map (fun e => e.1)).contains k = true
      · have hm' : k ∈ rest.map (fun e => e.1) := by simpa using hm
        simp only [hm, if_true]
        rw [if_pos]
        simpa using Or.inr (by simpa using hm')
      · have hm' : k ∉ rest.map (fun e => e.1) := by simpa using hm
        simp only [hm, Bool.false_eq_true, if_false, List.cons_append]
        rw [if_neg]
        simpa using ⟨hk2, by simpa using hm'⟩

theorem keys_foldl_bump (l : List String) :
    ∀ acc : List (String × Nat),
      (l.foldl bump acc).map (fun e => e.1) =
        l.foldl (fun ks x => if ks.contains x then ks else ks ++ [x])
          (acc.map (fun e => e.1)) := by
  induction l with
  | nil => intro acc; rfl
  | cons k l ih => intro acc; rw [List.foldl_cons, ih, keys_bump, List.foldl_cons]

theorem mem_foldl_firstSeen (x : String) (xs : List String) :
    ∀ acc : List String,
      x ∈ xs.foldl (fun acc x => if acc.contains x then acc else acc ++ [x]) acc ↔
        x ∈ acc ∨ x ∈ xs := by
  induction xs with
  | nil => intro acc; simp
  | cons y ys ih =>
    intro acc
    rw [List.foldl_cons, ih]
    by_cases hy : acc.contains y = true
    · have hy' : y ∈ acc := by simpa using hy
      simp only [hy, if_true, List.mem_cons]
      constructor
      · rintro (h | h)
        · exact Or.inl h
        · exact Or.inr (Or.inr h)
      · rintro (h | h | h)
        · exact Or.inl h
        · exact Or.inl (h ▸ hy')
        · exact Or.inr h
    · simp only [hy, Bool.false_eq_true, if_false, List.mem_append, List.mem_singleton,
        List.mem_cons]
      tauto

theorem mem_firstSeen (x : String) (xs : List String) : x ∈ firstSeen xs ↔ x ∈ xs := by
  unfold firstSeen
  rw [mem_foldl_firstSeen]
  simp

theorem foldl_congr_mem {α β : Type} (f g : β → α → β) (l : List α) :
    ∀ a : β, (∀ a, ∀ b ∈ l, f a b = g a b) → l.foldl f a = l.foldl g a := by
  induction l with
  | nil => intro a _; rfl
  | cons x xs ih =>
    intro a h
    rw [List.foldl_cons, List.foldl_cons, h a x (List.mem_cons_self _ _)]
    exact ih _ (fun a b hb => h a b (List.mem_cons_of_mem _ hb))

/-- The reduce `(a, b) => v(a) > v(b) ? a : b` keeps the seed only when it beats every
element; otherwise it returns an element that no element beats and that every later
element is strictly below. -/
theorem foldl_keep_greater (v : String → Nat) (ks : List String) :
    ∀ a : String,
      (ks.foldl (fun a b => if v a > v b then a else b) a = a ∧ ∀ k ∈ ks, v k < v a) ∨
      (∃ l1 l2, ks = l1 ++ ks.foldl (fun a b => if v a > v b then a else b) a :: l2 ∧
        (∀ k ∈ l2, v k < v (ks.foldl (fun a b => if v a > v b then a else b) a)) ∧
        v a ≤ v (ks.foldl (fun a b => if v a > v b then a else b) a) ∧
        ∀ k ∈ l1, v k ≤ v (ks.foldl (fun a b => if v a > v b then a else b) a)) := by
  induction ks with
  | nil => intro a; exact Or.inl ⟨rfl, by simp⟩
  | cons b ks ih =>
    intro a
    rw [List.foldl_cons]
    by_cases hab : v a > v b
    · rw [if_pos hab]
      rcases ih a with ⟨hr, hall⟩ | ⟨l1, l2, hks, h2, ha, h1⟩
      · refine Or.inl ⟨hr, ?_⟩
        intro k hk
        rcases List.mem_cons.mp hk with h | h
        · exact h ▸ hab
        · exact hall k h
      · refine Or.inr ⟨b :: l1, l2, by rw [List.cons_append, ← hks], h2, ha, ?_⟩
        intro k hk
        rcases List.mem_cons.mp hk with h | h
        · rw [h]; omega
        · exact h1 k h
    · rw [if_neg hab]
      rcases ih b with ⟨hr, hall⟩ | ⟨l1, l2, hks, h2, hb, h1⟩
      · refine Or.inr ⟨[], ks, by rw [hr]; rfl, by rw [hr]; exact hall, by rw [hr]; omega, by simp⟩
      · refine Or.inr ⟨b :: l1, l2, by rw [List.cons_append, ← hks], h2, by omega, ?_⟩
        intro k hk
        rcases List.mem_cons.mp hk with h | h
        · rw [h]; exact hb
        · exact h1 k h

theorem categoryCount_eq (s : Store) (ip : String) :
    categoryCount s ip = (completedCategories s ip).foldl bump [] := by
  unfold categoryCount completedCategories
  rw [List.foldl_map]

theorem keys_categoryCount (s : Store) (ip : String) :
    (categoryCount s ip).map (fun e => e.1) = firstSeen (completedCategories s ip) := by
  rw [categoryCount_eq, keys_foldl_bump]
  rfl

theorem jsGt_lookup_categoryCount (s : Store) (ip : String) (a b : String)
    (hb : b ∈ completedCategories s ip) :
    jsGt ((categoryCount s ip).lookup a) ((categoryCount s ip).lookup b) =
      decide ((completedCategories s ip).count a > (completedCategories s ip).count b) := by
  have hga := lookup_foldl_bump (completedCategories s ip) a []
  have hgb := lookup_foldl_bump (completedCategories s ip) b []
  have hsa := lookup_foldl_bump_isSome (completedCategories s ip) a []
  have hsb := lookup_foldl_bump_isSome (completedCategories s ip) b []
  rw [← categoryCount_eq] at hga hgb hsa hsb
  simp only [List.lookup, Option.getD_none, Nat.zero_add, Option.isSome_none,
    Bool.false_or] at hga hgb hsa hsb
  cases hlb : (categoryCount s ip).lookup b with
  | none => simp [hlb, hb] at hsb
  | some y =>
    rw [hlb] at hgb
    simp only [Option.getD_some] at hgb
    cases hla : (categoryCount s ip).lookup a with
    | none =>
      rw [hla] at hga hsa
      simp only [Option.getD_none] at hga
      simp [jsGt, ← hga]
    | some x =>
      rw [hla] at hga
      simp only [Option.getD_some] at hga
      simp [jsGt, hga, hgb]

/-- C11 (amended): preferredCategory is "life-and-death" when the identity has completed
no puzzle; otherwise it is a category of a completed puzzle whose completed-puzzle count
is maximal, and every category first seen after it among the completed puzzles has a
strictly smaller count: among tied categories it is the one first seen last. -/
theorem preferredCategory_is_last_maximal (s : Store) (ip : String) :
    (completedPuzzles s ip = [] → preferredCategory s ip = "life-and-death") ∧
    (completedPuzzles s ip ≠ [] →
      ∃ l1 l2, firstSeen (completedCategories s ip) = l1 ++ preferredCategory s ip :: l2 ∧
        (∀ c, (completedCategories s ip).count c ≤
          (completedCategories s ip).count (preferredCategory s ip)) ∧
        (∀ c ∈ l2, (completedCategories s ip).count c <
          (completedCategories s ip).count (preferredCategory s ip))) := by
  have hpref : preferredCategory s ip =
      (firstSeen (completedCategories s ip)).foldl
        (fun a b => if (completedCategories s ip).count a > (completedCategories s ip).count b
          then a else b) "life-and-death" := by
    unfold preferredCategory
    rw [keys_categoryCount]
    apply foldl_congr_mem
    intro a b hb
    rw [jsGt_lookup_categoryCount s ip a b ((mem_firstSeen b _).mp hb)]
    simp
  refine ⟨?_, ?_⟩
  · intro hnil
    rw [hpref]
    simp [completedCategories, hnil, firstSeen]
  · intro hne
    rw [hpref]
    rcases foldl_keep_greater (fun c => (completedCategories s ip).count c)
        (firstSeen (completedCategories s ip)) "life-and-death" with
      ⟨_, hall⟩ | ⟨l1, l2, hks, h2, _, h1⟩
    · exfalso
      obtain ⟨p, hp⟩ := List.exists_mem_of_ne_nil _ hne
      have hk : p.category ∈ completedCategories s ip := List.mem_map_of_mem _ hp
      have h0 := hall p.category ((mem_firstSeen _ _).mpr hk)
      have hseed : "life-and-death" ∈ completedCategories s ip :=
        List.count_pos_iff.mp (by omega)
      have := hall _ ((mem_firstSeen _ _).mpr hseed)
      omega
    · refine ⟨l1, l2, hks, ?_, h2⟩
      intro c
      by_cases hc : c ∈ completedCategories s ip
      · have hmem := (mem_firstSeen c _).mpr hc
        rw [hks] at hmem
        rcases List.mem_append.mp hmem with h | h
        · exact h1 c h
        · rcases List.mem_cons.mp h with h | h
          · rw [← h]
          · exact le_of_lt (h2 c h)
      · rw [List.count_eq_zero_of_not_mem hc]
        exact Nat.zero_le _

/-- Witness for C11: in `tieStore` the preferred category splits the categories in
first-seen order with nothing after it. -/
theorem preferredCategory_is_last_maximal_witness :
    ∃ l1 l2, firstSeen (completedCategories tieStore "1.2.3.4") =
        l1 ++ preferredCategory tieStore "1.2.3.4" :: l2 ∧
      (∀ c, (completedCategories tieStore "1.2.3.4").count c ≤
        (completedCategories tieStore "1.2.3.4").count (preferredCategory tieStore "1.2.3.4")) ∧
      (∀ c ∈ l2, (completedCategories tieStore "1.2.3.4").count c <
        (completedCategories tieStore "1.2.3.4").count (preferredCategory tieStore "1.2.3.4")) :=
  (preferredCategory_is_last_maximal tieStore "1.2.3.4").2 (by decide)

/-- C11 (counterexample): with one completed "tesuji" puzzle seen first and one completed
"endgame" puzzle seen second, both counts are 1 and preferredCategory is "endgame", the
category seen last, not "tesuji". -/
theorem preferredCategory_tie_counterexample :
    completedCategories tieStore "1.2.3.4" = ["tesuji", "endgame"] ∧
    (completedCategories tieStore "1.2.3.4").count "tesuji" = 1 ∧
    (completedCategories tieStore "1.2.3.4").count "endgame" = 1 ∧
    preferredCategory tieStore "1.2.3.4" = "endgame" := by
  decide

/-! ### Likes -/

theorem updateFirst_of_find?_none {α : Type} (p : α → Bool) (f : α → α) (l : List α)
    (h : l.find? p = none) : updateFirst p f l = l := by
  induction l with
  | nil => rfl
  | cons x xs ih =>
    by_cases hx : p x = true
    · simp [List.find?, hx] at h
    · simp only [Bool.not_eq_true] at hx
      simp only [List.find?, hx] at h
      simp [updateFirst, hx, ih h]

/-- C12: for a collection, and likewise a puzzle, whose liked-by set does not hold the
identity, the first like request succeeds and the second is answered 'Already liked'
and leaves the store as it was; afterwards the like counter is exactly 1 higher than
before and the identity occurs exactly once in the liked-by set. -/
theorem like_twice_counts_once (s : Store) (ip : String) :
    (∀ cid c, findCollection s cid = some c → ip ∉ c.likedBy →
      (likeCollection s ip cid).1 = Status.ok ∧
      likeCollection (likeCollection s ip cid).2 ip cid =
        (Status.conflict, (likeCollection s ip cid).2) ∧
      ∃ c', findCollection (likeCollection s ip cid).2 cid = some c' ∧
        c'.likes = c.likes + 1 ∧ c'.likedBy.count ip = 1) ∧
    (∀ pid p, findPuzzle s pid = some p → ip ∉ p.likedBy →
      (likePuzzle s ip pid).1 = Status.ok ∧
      likePuzzle (likePuzzle s ip pid).2 ip pid =
        (Status.conflict, (likePuzzle s ip pid).2) ∧
      ∃ p', findPuzzle (likePuzzle s ip pid).2 pid = some p' ∧
        p'.likes = p.likes + 1 ∧ p'.likedBy.count ip = 1) := by
  refine ⟨?_, ?_⟩
  · intro cid c hc hn
    have h1 : likeCollection s ip cid = (Status.ok, Store.mk
        (updateFirst (fun x => x.id == cid)
          (fun x => { x with likes := c.likes + 1, likedBy := c.likedBy ++ [ip] })
          s.collections) s.puzzles s.progress) := by
      simp [likeCollection, hc, hn]
    have h2 : findCollection (likeCollection s ip cid).2 cid =
        some { c with likes := c.likes + 1, likedBy := c.likedBy ++ [ip] } := by
      rw [h1]
      simp only [findCollection] at hc ⊢
      rw [find?_updateFirst _ _ (fun x hx => by simpa using hx), hc]
      rfl
    refine ⟨by rw [h1], ?_, _, h2, rfl, ?_⟩
    · generalize (likeCollection s ip cid).2 = s1 at h2
      simp [likeCollection, h2]
    · simp [List.count_eq_zero_of_not_mem hn]
  · intro pid p hp hn
    have h1 : likePuzzle s ip pid = (Status.ok, Store.mk s.collections
        (updateFirst (fun x => x.id == pid)
          (fun x => { x with likes := p.likes + 1, likedBy := p.likedBy ++ [ip] })
          s.puzzles) s.progress) := by
      simp [likePuzzle, hp, hn]
    have h2 : findPuzzle (likePuzzle s ip pid).2 pid =
        some { p with likes := p.likes + 1, likedBy := p.likedBy ++ [ip] } := by
      rw [h1]
      simp only [findPuzzle] at hp ⊢
      rw [find?_updateFirst _ _ (fun x hx => by simpa using hx), hp]
      rfl
    refine ⟨by rw [h1], ?_, _, h2, rfl, ?_⟩
    · generalize (likePuzzle s ip pid).2 = s1 at h2
      simp [likePuzzle, h2]
    · simp [List.count_eq_zero_of_not_mem hn]

/-- Witness for C12: two likes of collection 1 and of puzzle 1 of `scenarioStore`. -/
theorem like_twice_counts_once_witness :
    ((likeCollection scenarioStore "1.2.3.4" 1).1 = Status.ok ∧
      likeCollection (likeCollection scenarioStore "1.2.3.4" 1).2 "1.2.3.4" 1 =
        (Status.conflict, (likeCollection scenarioStore "1.2.3.4" 1).2) ∧
      ∃ c', findCollection (likeCollection scenarioStore "1.2.3.4" 1).2 1 = some c' ∧
        c'.likes = (mkCollection 1 false [1]).likes + 1 ∧ c'.likedBy.count "1.2.3.4" = 1) ∧
    ((likePuzzle scenarioStore "1.2.3.4" 1).1 = Status.ok ∧
      likePuzzle (likePuzzle scenarioStore "1.2.3.4" 1).2 "1.2.3.4" 1 =
        (Status.conflict, (likePuzzle scenarioStore "1.2.3.4" 1).2) ∧
      ∃ p', findPuzzle (likePuzzle scenarioStore "1.2.3.4" 1).2 1 = some p' ∧
        p'.likes = scenarioPuzzle.likes + 1 ∧ p'.likedBy.count "1.2.3.4" = 1) :=
  ⟨(like_twice_counts_once scenarioStore "1.2.3.4").1 1 (mkCollection 1 false [1])
      (by decide) (by decide),
    (like_twice_counts_once scenarioStore "1.2.3.4").2 1 scenarioPuzzle
      (by decide) (by decide)⟩

/-! ### recordAttempt and missing puzzles -/

theorem find?_updateFirst_other {α : Type} (p q : α → Bool) (f : α → α)
    (h1 : ∀ x, p x = true → q x = false) (h2 : ∀ x, p x = true → q (f x) = false)
    (l : List α) : (updateFirst p f l).find? q = l.find? q := by
  induction l with
  | nil => rfl
  | cons x xs ih =>
    by_cases hx : p x = true
    · simp [updateFirst, hx, List.find?, h1 x hx, h2 x hx]
    · simp only [Bool.not_eq_true] at hx
      simp only [updateFirst, hx, Bool.false_eq_true, if_false, List.find?, ih]

theorem find?_upsertFirst_other {α : Type} (p q : α → Bool) (f : α → α) (fresh : α)
    (h1 : ∀ x, p x = true → q x = false) (h2 : ∀ x, p x = true → q (f x) = false)
    (h3 : q (f fresh) = false) (l : List α) :
    (upsertFirst p f fresh l).find? q = l.find? q := by
  induction l with
  | nil => simp [upsertFirst, List.find?, h3]
  | cons x xs ih =>
    by_cases hx : p x = true
    · simp [upsertFirst, hx, List.find?, h1 x hx, h2 x hx]
    · simp only [Bool.not_eq_true] at hx
      simp only [upsertFirst, hx, Bool.false_eq_true, if_false, List.find?, ih]

theorem progressKey_of_ne (ip ip' : String) (pid pid' : Nat) (h : (ip', pid') ≠ (ip, pid))
    (x : UserProgress) (hx : progressKey ip pid x = true) : progressKey ip' pid' x = false := by
  simp only [progressKey, Bool.and_eq_true, beq_iff_eq] at hx
  simp only [progressKey, Bool.and_eq_false_iff, beq_eq_false_iff_ne, ne_eq]
  by_contra hcon
  push_neg at hcon
  exact h (by rw [← hcon.1, ← hcon.2, hx.1, hx.2])

/-- The store after an attempt on an existing puzzle. -/
theorem recordAttempt_of_found (s : Store) (ip : String) (pid : Nat) (puzzle : Puzzle)
    (h : findPuzzle s pid = some puzzle) :
    recordAttempt s ip pid = (Status.ok, Store.mk s.collections
      (updateFirst (fun p => p.id == pid)
        (fun p => { p with attemptCount := p.attemptCount + 1 }) s.puzzles)
      (upsertFirst (progressKey ip pid)
        (fun r => { r with attempts := r.attempts + 1, collectionId := puzzle.collectionId,
                           ip := ip, puzzleId := pid })
        (freshProgress ip pid puzzle.collectionId) s.progress)) := by
  have hf : (updateFirst (fun p => p.id == pid)
      (fun p => { p with attemptCount := p.attemptCount + 1 }) s.puzzles).find?
      (fun p => p.id == pid) = some { puzzle with attemptCount := puzzle.attemptCount + 1 } := by
    simp only [findPuzzle] at h
    rw [find?_updateFirst _ _ (fun x hx => by simpa using hx), h]
    rfl
  simp only [recordAttempt, hf]

/-- C13: one recordAttempt call on an existing puzzle succeeds, raises the puzzle's
attempt counter by exactly 1 and the attempt count of the (identity, puzzle) record by
exactly 1, creating the record with attempt count 1 and completed = false when it was
absent; every other puzzle, every other Progress Record and the collections are as
before; a second call adds 1 again to both counters. -/
theorem recordAttempt_increments_by_one (s : Store) (ip : String) (pid : Nat)
    (puzzle : Puzzle) (h : findPuzzle s pid = some puzzle) :
    (recordAttempt s ip pid).1 = Status.ok ∧
    findPuzzle (recordAttempt s ip pid).2 pid =
      some { puzzle with attemptCount := puzzle.attemptCount + 1 } ∧
    (∀ pid', pid' ≠ pid →
      findPuzzle (recordAttempt s ip pid).2 pid' = findPuzzle s pid') ∧
    (recordAttempt s ip pid).2.collections = s.collections ∧
    (findProgress s ip pid = none →
      findProgress (recordAttempt s ip pid).2 ip pid =
        some { freshProgress ip pid puzzle.collectionId with attempts := 1 }) ∧
    (∀ r, findProgress s ip pid = some r →
      findProgress (recordAttempt s ip pid).2 ip pid =
        some { r with attempts := r.attempts + 1, collectionId := puzzle.collectionId }) ∧
    (∀ ip' pid', (ip', pid') ≠ (ip, pid) →
      findProgress (recordAttempt s ip pid).2 ip' pid' = findProgress s ip' pid') ∧
    (findPuzzle (recordAttempt (recordAttempt s ip pid).2 ip pid).2 pid).map
        (fun p => p.attemptCount) = some (puzzle.attemptCount + 2) ∧
    (findProgress (recordAttempt (recordAttempt s ip pid).2 ip pid).2 ip pid).map
        (fun r => r.attempts) =
      some (((findProgress s ip pid).map (fun r => r.attempts)).getD 0 + 2) := by
  have hpz : findPuzzle (recordAttempt s ip pid).2 pid =
      some { puzzle with attemptCount := puzzle.attemptCount + 1 } := by
    rw [recordAttempt_of_found s ip pid puzzle h]
    simp only [findPuzzle] at h ⊢
    rw [find?_updateFirst _ _ (fun x hx => by simpa using hx), h]
    rfl
  have hpr : ∀ (s : Store) (puzzle : Puzzle), findPuzzle s pid = some puzzle →
      findProgress (recordAttempt s ip pid).2 ip pid =
        some { ((findProgress s ip pid).getD (freshProgress ip pid puzzle.collectionId)) with
          attempts := ((findProgress s ip pid).getD
            (freshProgress ip pid puzzle.collectionId)).attempts + 1,
          collectionId := puzzle.collectionId, ip := ip, puzzleId := pid } := by
    intro s puzzle h
    rw [recordAttempt_of_found s ip pid puzzle h]
    simp only [findProgress]
    rw [find?_upsertFirst]
    · intro x _; simp [progressKey]
    · simp [progressKey]
  refine ⟨by rw [recordAttempt_of_found s ip pid puzzle h], hpz, ?_, ?_, ?_, ?_, ?_, ?_, ?_⟩
  · intro pid' hne
    rw [recordAttempt_of_found s ip pid puzzle h]
    simp only [findPuzzle]
    apply find?_updateFirst_other
    · intro x hx
      have : x.id = pid := by simpa using hx
      simpa [this] using fun h' => hne h'.symm
    · intro x hx
      have : x.id = pid := by simpa using hx
      simpa [this] using fun h' => hne h'.symm
  · rw [recordAttempt_of_found s ip pid puzzle h]
  · intro hnone
    rw [hpr s puzzle h, hnone]
    rfl
  · intro r hr
    rw [hpr s puzzle h, hr]
    have hkey : progressKey ip pid r = true := by
      simp only [findProgress] at hr
      exact List.find?_some hr
    simp only [progressKey, Bool.and_eq_true, beq_iff_eq] at hkey
    simp only [Option.getD_some, Option.some.injEq]
    rw [← hkey.1, ← hkey.2]
  · intro ip' pid' hne
    rw [recordAttempt_of_found s ip pid puzzle h]
    simp only [findProgress]
    apply find?_upsertFirst_other
    · exact progressKey_of_ne ip ip' pid pid' hne
    · intro x _
      exact progressKey_of_ne ip ip' pid pid' hne _ (by simp [progressKey])
    · exact progressKey_of_ne ip ip' pid pid' hne _ (by simp [progressKey])
  · have h2 := recordAttempt_of_found _ ip pid _ hpz
    rw [h2]
    simp only [findPuzzle] at hpz ⊢
    rw [find?_updateFirst _ _ (fun x hx => by simpa using hx), hpz]
    rfl
  · rw [hpr _ _ hpz, hpr s puzzle h]
    cases findProgress s ip pid <;> simp [freshProgress]


/-- Witness for C13: the first attempt on puzzle 1 of `scenarioStore`. -/
theorem recordAttempt_increments_by_one_witness :
    (recordAttempt scenarioStore "1.2.3.4" 1).1 = Status.ok ∧
    findPuzzle (recordAttempt scenarioStore "1.2.3.4" 1).2 1 =
      some { scenarioPuzzle with attemptCount := scenarioPuzzle.attemptCount + 1 } ∧
    findProgress (recordAttempt scenarioStore "1.2.3.4" 1).2 "1.2.3.4" 1 =
      some { freshProgress "1.2.3.4" 1 scenarioPuzzle.collectionId with attempts := 1 } :=
  ⟨(recordAttempt_increments_by_one scenarioStore "1.2.3.4" 1 scenarioPuzzle (by decide)).1,
    (recordAttempt_increments_by_one scenarioStore "1.2.3.4" 1 scenarioPuzzle (by decide)).2.1,
    (recordAttempt_increments_by_one scenarioStore "1.2.3.4" 1 scenarioPuzzle
      (by decide)).2.2.2.2.1 (by decide)⟩

/-- C14: recordAttempt and recordCompletion on a puzzle id that is not in the store answer
NotFound and leave the whole store (puzzles with their counters and completion events,
collections, Progress Records) exactly as it was. -/
theorem tracker_notFound_changes_nothing (s : Store) (ip : String) (pid : Nat)
    (solved : Bool) (moves time : Option Nat) (now : Nat) (h : findPuzzle s pid = none) :
    recordAttempt s ip pid = (Status.notFound, s) ∧
    recordCompletion s ip pid solved moves time now = (Status.notFound, s) := by
  refine ⟨?_, by simp [recordCompletion, h]⟩
  simp only [findPuzzle] at h
  simp only [recordAttempt, updateFirst_of_find?_none _ _ _ h, h]


/-- Witness for C14: puzzle 7 does not exist in `scenarioStore`. -/
theorem tracker_notFound_changes_nothing_witness :
    findPuzzle scenarioStore 7 = none ∧
    recordAttempt scenarioStore "1.2.3.4" 7 = (Status.notFound, scenarioStore) ∧
    recordCompletion scenarioStore "1.2.3.4" 7 true (some 3) (some 20) 5 =
      (Status.notFound, scenarioStore) :=
  ⟨by decide,
    tracker_notFound_changes_nothing scenarioStore "1.2.3.4" 7 true (some 3) (some 20) 5
      (by decide)⟩

/-! ### Absent move count, best time -/

/-- The optional best time after the best-time step of a completion with elapsed time
`time` on a record whose best time was `old`. -/
theorem bestTimeOf_recordCompletion (s : Store) (ip : String) (pid : Nat)
    (moves time : Option Nat) (now : Nat) (h : findPuzzle s pid ≠ none) :
    bestTimeOf (recordCompletion s ip pid true moves time now).2 ip pid =
      match time with
      | none => bestTimeOf s ip pid
      | some t =>
        if truthy (some t) && (!truthy (bestTimeOf s ip pid) ||
            decide (t < (bestTimeOf s ip pid).getD 0)) then some t
        else bestTimeOf s ip pid := by
  cases hp : findPuzzle s pid with
  | none => exact absurd hp h
  | some puzzle =>
    rw [bestTimeOf, findProgress_recordCompletion s ip pid moves time now puzzle hp]
    have hold : ((findProgress s ip pid).getD (freshProgress ip pid puzzle.collectionId)).bestTime
        = bestTimeOf s ip pid := by
      cases hr : findProgress s ip pid <;> simp [bestTimeOf, hr, freshProgress]
    simp only [Option.some_bind]
    cases time with
    | none => simp only [bestTimeUpdate, completionUpdate]; exact hold
    | some t =>
      simp only [bestTimeUpdate, completionUpdate, hold]
      split <;> simp [hold]

/-- C15 (amended): a successful recordCompletion that supplies no moveCount applies the
sentinel 999 to the best-move-count: it becomes 999 when it was unset and min(b, 999)
when it was b, so it is left as it was exactly when it was set and at most 999; one
that supplies no elapsedTime leaves the best time exactly as it was, unset included. -/
theorem completion_without_moves_or_time (s : Store) (ip : String) (pid : Nat)
    (moves time : Option Nat) (now : Nat) (h : findPuzzle s pid ≠ none) :
    (bestMovesOf s ip pid = none →
      bestMovesOf (recordCompletion s ip pid true none time now).2 ip pid = some 999) ∧
    (∀ b, bestMovesOf s ip pid = some b →
      bestMovesOf (recordCompletion s ip pid true none time now).2 ip pid =
        some (min b 999)) ∧
    (∀ b, bestMovesOf s ip pid = some b → b ≤ 999 →
      bestMovesOf (recordCompletion s ip pid true none time now).2 ip pid =
        bestMovesOf s ip pid) ∧
    bestTimeOf (recordCompletion s ip pid true moves none now).2 ip pid =
      bestTimeOf s ip pid := by
  have hm := bestMovesOf_recordCompletion s ip pid none time now h
  refine ⟨?_, ?_, ?_, bestTimeOf_recordCompletion s ip pid moves none now h⟩
  · intro h0; rw [hm, h0]; rfl
  · intro b hb; rw [hm, hb]; rfl
  · intro b hb hle
    rw [hm, hb]
    simp [mongoMin, jsOr, hle]

/-- Witness for C15: a second completion without moveCount and elapsedTime keeps the best
move count 12 and the best time 30 of the first. -/
theorem completion_without_moves_or_time_witness :
    bestMovesOf (recordCompletion
        (recordCompletion scenarioStore "1.2.3.4" 1 true (some 12) (some 30) 5).2
        "1.2.3.4" 1 true none none 6).2 "1.2.3.4" 1 =
      bestMovesOf (recordCompletion scenarioStore "1.2.3.4" 1 true (some 12) (some 30) 5).2
        "1.2.3.4" 1 ∧
    bestTimeOf (recordCompletion
        (recordCompletion scenarioStore "1.2.3.4" 1 true (some 12) (some 30) 5).2
        "1.2.3.4" 1 true none none 6).2 "1.2.3.4" 1 =
      bestTimeOf (recordCompletion scenarioStore "1.2.3.4" 1 true (some 12) (some 30) 5).2
        "1.2.3.4" 1 :=
  ⟨(completion_without_moves_or_time
      (recordCompletion scenarioStore "1.2.3.4" 1 true (some 12) (some 30) 5).2
      "1.2.3.4" 1 none none 6 (by decide)).2.2.1 12 (by decide) (by decide),
    (completion_without_moves_or_time
      (recordCompletion scenarioStore "1.2.3.4" 1 true (some 12) (some 30) 5).2
      "1.2.3.4" 1 none none 6 (by decide)).2.2.2⟩

/-- C15 (counterexample): a successful completion without moveCount on a pair without a
record leaves best-move-count 999, not unset. -/
theorem completion_without_moves_counterexample :
    bestMovesOf scenarioStore "1.2.3.4" 1 = none ∧
    (recordCompletion scenarioStore "1.2.3.4" 1 true none none 5).1 = Status.ok ∧
    bestMovesOf (recordCompletion scenarioStore "1.2.3.4" 1 true none none 5).2 "1.2.3.4" 1 =
      some 999 := by
  decide

/-- What the best-time step of the handler does: for a supplied elapsedTime t of at least
1 the best time becomes t when no best time existed (or it was 0) and the smaller of t
and b when the best time was b >= 1; the guard `time && ...` skips an elapsedTime of 0,
which leaves the best time as it was. Over any sequence of completions a best time
b >= 1 never increases. -/
theorem bestTime_ratchet_for_positive_times (s : Store) (ip : String) (pid : Nat)
    (moves : Option Nat) (t now : Nat) (h : findPuzzle s pid ≠ none) :
    (t = 0 → bestTimeOf (recordCompletion s ip pid true moves (some t) now).2 ip pid =
      bestTimeOf s ip pid) ∧
    (1 ≤ t → (bestTimeOf s ip pid = none ∨ bestTimeOf s ip pid = some 0) →
      bestTimeOf (recordCompletion s ip pid true moves (some t) now).2 ip pid = some t) ∧
    (1 ≤ t → ∀ b, 1 ≤ b → bestTimeOf s ip pid = some b →
      bestTimeOf (recordCompletion s ip pid true moves (some t) now).2 ip pid =
        some (if t < b then t else b)) ∧
    (∀ (cs : List CompletionCall) (b : Nat), 1 ≤ b → bestTimeOf s ip pid = some b →
      ∃ b', bestTimeOf (completeAll s ip pid cs) ip pid = some b' ∧ 1 ≤ b' ∧ b' ≤ b) := by
  have hstep := bestTimeOf_recordCompletion s ip pid moves (some t) now h
  simp only at hstep
  refine ⟨?_, ?_, ?_, ?_⟩
  · intro h0
    subst h0
    rw [hstep]
    simp [truthy]
  · intro ht hold
    obtain ⟨n, rfl⟩ : ∃ n, t = n + 1 := ⟨t - 1, by omega⟩
    rw [hstep]
    rcases hold with hold | hold <;> simp [hold, truthy]
  · intro ht b hb hold
    obtain ⟨n, rfl⟩ : ∃ n, t = n + 1 := ⟨t - 1, by omega⟩
    obtain ⟨m, rfl⟩ : ∃ m, b = m + 1 := ⟨b - 1, by omega⟩
    rw [hstep, hold]
    simp only [truthy, Option.getD_some, Bool.not_true, Bool.false_or, Bool.true_and,
      decide_eq_true_eq]
    split <;> rfl
  · intro cs
    induction cs generalizing s with
    | nil => intro b hb hold; exact ⟨b, hold, hb, le_refl _⟩
    | cons c cs ih =>
      intro b hb hold
      have h' := findPuzzle_recordCompletion s ip pid true (some c.moves) c.time c.now h
      have hone : ∃ b1, bestTimeOf (recordCompletion s ip pid true (some c.moves) c.time
          c.now).2 ip pid = some b1 ∧ 1 ≤ b1 ∧ b1 ≤ b := by
        rw [bestTimeOf_recordCompletion s ip pid (some c.moves) c.time c.now h, hold]
        cases c.time with
        | none => exact ⟨b, rfl, hb, le_refl _⟩
        | some t1 =>
          obtain ⟨m, rfl⟩ : ∃ m, b = m + 1 := ⟨b - 1, by omega⟩
          cases t1 with
          | zero => exact ⟨m + 1, by simp [truthy], hb, le_refl _⟩
          | succ n =>
            by_cases hlt : n + 1 < m + 1
            · exact ⟨n + 1, by simp [truthy, hlt], by omega, by omega⟩
            · exact ⟨m + 1, by simp [truthy, hlt], hb, le_refl _⟩
      obtain ⟨b1, hb1, h1, hle⟩ := hone
      obtain ⟨b', hb', h1', hle'⟩ := ih _ h' (bestTimeOf_recordCompletion _ ip pid moves
        (some t) now h') b1 h1 hb1
      exact ⟨b', hb', h1', le_trans hle' hle⟩

/-- The ratchet at a concrete input: after a completion in 30 seconds, one in 20 seconds
lowers the best time to 20. -/
theorem bestTime_ratchet_for_positive_times_witness :
    bestTimeOf (recordCompletion
        (recordCompletion scenarioStore "1.2.3.4" 1 true (some 9) (some 30) 5).2
        "1.2.3.4" 1 true (some 9) (some 20) 6).2 "1.2.3.4" 1 =
      some (if 20 < 30 then 20 else 30) :=
  (bestTime_ratchet_for_positive_times
    (recordCompletion scenarioStore "1.2.3.4" 1 true (some 9) (some 30) 5).2
    "1.2.3.4" 1 (some 9) 20 6 (by decide)).2.2.1 (by decide) 30 (by decide) (by decide)

/-- C16 (failing input): a successful completion that supplies elapsedTime 0 on a pair
without a best time leaves the best time unset, not 0; on a record with best time 30 it
leaves 30, not 0. The handler's comment reads 'Update best time if provided', and a time
was provided. -/
theorem bestTime_zero_counterexample :
    bestTimeOf scenarioStore "1.2.3.4" 1 = none ∧
    bestTimeOf (recordCompletion scenarioStore "1.2.3.4" 1 true (some 9) (some 0) 5).2
      "1.2.3.4" 1 = none ∧
    bestTimeOf (recordCompletion scenarioStore "1.2.3.4" 1 true (some 9) (some 30) 5).2
      "1.2.3.4" 1 = some 30 ∧
    bestTimeOf (recordCompletion
      (recordCompletion scenarioStore "1.2.3.4" 1 true (some 9) (some 30) 5).2
      "1.2.3.4" 1 true (some 9) (some 0) 6).2 "1.2.3.4" 1 = some 30 := by
  decide

/-! ### Invariant of completed records -/

theorem mem_upsertFirst {α : Type} (p : α → Bool) (f : α → α) (fresh : α) (y : α)
    (l : List α) (h : y ∈ upsertFirst p f fresh l) :
    y ∈ l ∨ (∃ x ∈ l, p x = true ∧ y = f x) ∨ y = f fresh := by
  induction l with
  | nil =>
    simp only [upsertFirst, List.mem_singleton] at h
    exact Or.inr (Or.inr h)
  | cons x xs ih =>
    by_cases hx : p x = true
    · simp only [upsertFirst, hx, if_true, List.mem_cons] at h
      rcases h with h | h
      · exact Or.inr (Or.inl ⟨x, List.mem_cons_self _ _, hx, h⟩)
      · exact Or.inl (List.mem_cons_of_mem _ h)
    · simp only [Bool.not_eq_true] at hx
      simp only [upsertFirst, hx, Bool.false_eq_true, if_false, List.mem_cons] at h
      rcases h with h | h
      · exact Or.inl (h ▸ List.mem_cons_self _ _)
      · rcases ih h with h1 | ⟨z, hz, hpz, hy⟩ | h1
        · exact Or.inl (List.mem_cons_of_mem _ h1)
        · exact Or.inr (Or.inl ⟨z, List.mem_cons_of_mem _ hz, hpz, hy⟩)
        · exact Or.inr (Or.inr h1)

theorem find?_updateFirst_id (pid pid' : Nat) (f : Puzzle → Puzzle)
    (hid : ∀ x, (f x).id = x.id) (l : List Puzzle) :
    (updateFirst (fun p => p.id == pid) f l).find? (fun p => p.id == pid') =
      (l.find? (fun p => p.id == pid')).map (fun x => if x.id == pid then f x else x) := by
  induction l with
  | nil => rfl
  | cons x xs ih =>
    by_cases hx : x.id = pid
    · have hb : (x.id == pid) = true := by simpa using hx
      simp only [updateFirst, hb, if_true]
      by_cases hx' : x.id = pid'
      · have hb' : (x.id == pid') = true := by simpa using hx'
        have hb2 : ((f x).id == pid') = true := by rw [hid]; exact hb'
        simp only [List.find?_cons, hb2, hb', Option.map_some', hb, if_true]
      · have hb' : (x.id == pid') = false := by simpa using hx'
        have hb2 : ((f x).id == pid') = false := by rw [hid]; exact hb'
        simp only [List.find?_cons, hb2, hb']
        cases hf : xs.find? (fun p => p.id == pid') with
        | none => rfl
        | some y =>
          have hy : y.id = pid' := by simpa using List.find?_some hf
          have hne : ¬ y.id = pid := by
            rw [hy]
            intro h
            exact hx' (hx.trans h.symm)
          simp [hne]
    · have hb : (x.id == pid) = false := by simpa using hx
      simp only [updateFirst, hb, Bool.false_eq_true, if_false]
      by_cases hx' : x.id = pid'
      · have hb' : (x.id == pid') = true := by simpa using hx'
        simp only [List.find?_cons, hb', Option.map_some', hb, Bool.false_eq_true, if_false]
      · have hb' : (x.id == pid') = false := by simpa using hx'
        simp only [List.find?_cons, hb', ih]

theorem hasCompletionEvent_updateFirst (s s' : Store) (pid0 : Nat) (f : Puzzle → Puzzle)
    (hs : s'.puzzles = updateFirst (fun p => p.id == pid0) f s.puzzles)
    (hid : ∀ x, (f x).id = x.id)
    (hsub : ∀ x, ∀ e ∈ x.completedBy, e ∈ (f x).completedBy)
    (ip : String) (pid b : Nat) (h : hasCompletionEvent s ip pid b = true) :
    hasCompletionEvent s' ip pid b = true := by
  unfold hasCompletionEvent findPuzzle at h ⊢
  rw [hs, find?_updateFirst_id pid0 pid f hid]
  cases hf : s.puzzles.find? (fun p => p.id == pid) with
  | none => simp [hf] at h
  | some p =>
    simp only [hf, List.any_eq_true] at h
    obtain ⟨e, he, hprop⟩ := h
    simp only [Option.map_some', List.any_eq_true]
    by_cases hp : (p.id == pid0) = true
    · simp only [hp, if_true]
      exact ⟨e, hsub p e he, hprop⟩
    · simp only [hp, if_false]
      exact ⟨e, he, hprop⟩

theorem recordCompletion_of_found (s : Store) (ip : String) (pid : Nat)
    (moves time : Option Nat) (now : Nat) (puzzle : Puzzle)
    (h : findPuzzle s pid = some puzzle) :
    recordCompletion s ip pid true moves time now = (Status.ok, Store.mk s.collections
      (updateFirst (fun p => p.id == pid)
        (fun p => { p with completedCount := p.completedCount + 1,
                           completedBy := p.completedBy ++
                             [{ ip := ip, moves := jsOr moves 0, completedAt := now }] })
        s.puzzles)
      (upsertFirst (progressKey ip pid)
        (fun r => bestTimeUpdate time (completionUpdate puzzle.collectionId moves now r))
        (freshProgress ip pid puzzle.collectionId) s.progress)) := by
  simp [recordCompletion, h]

theorem puzzleId_bestTimeUpdate (time : Option Nat) (r : UserProgress) :
    (bestTimeUpdate time r).puzzleId = r.puzzleId := by
  unfold bestTimeUpdate
  cases time with
  | none => rfl
  | some t => dsimp only; split <;> rfl

theorem recordAttempt_of_not_found (s : Store) (ip : String) (pid : Nat)
    (h : findPuzzle s pid = none) : recordAttempt s ip pid = (Status.notFound, s) := by
  simp only [findPuzzle] at h
  simp only [recordAttempt, updateFirst_of_find?_none _ _ _ h, h]

theorem hasCompletionEvent_new (s : Store) (ip : String) (pid : Nat)
    (moves time : Option Nat) (now : Nat) (puzzle : Puzzle)
    (h : findPuzzle s pid = some puzzle) :
    hasCompletionEvent (recordCompletion s ip pid true moves time now).2 ip pid
      (jsOr moves 0) = true := by
  rw [recordCompletion_of_found s ip pid moves time now puzzle h]
  simp only [hasCompletionEvent, findPuzzle] at h ⊢
  rw [find?_updateFirst _ _ (fun x hx => by simpa using hx), h]
  simp

theorem ProgressInv_recordAttempt (strict : Prop) (s : Store) (ip : String) (pid : Nat)
    (h : ProgressInv strict s) : ProgressInv strict (recordAttempt s ip pid).2 := by
  cases hp : findPuzzle s pid with
  | none => rw [recordAttempt_of_not_found s ip pid hp]; exact h
  | some puzzle =>
    have transport : ∀ (ip0 : String) (pid0 b : Nat), hasCompletionEvent s ip0 pid0 b = true →
        hasCompletionEvent (recordAttempt s ip pid).2 ip0 pid0 b = true := by
      intro ip0 pid0 b hb
      rw [recordAttempt_of_found s ip pid puzzle hp]
      exact hasCompletionEvent_updateFirst s _ pid
        (fun p => { p with attemptCount := p.attemptCount + 1 }) rfl (fun _ => rfl)
        (fun _ e he => he) ip0 pid0 b hb
    intro r' hr'
    have hr2 := hr'
    rw [recordAttempt_of_found s ip pid puzzle hp] at hr2
    rcases mem_upsertFirst _ _ _ r' _ hr2 with hmem | ⟨r, hr, hkey, rfl⟩ | rfl
    · obtain ⟨h1, h2⟩ := h r' hmem
      exact ⟨h1, fun b hb => (h2 b hb).imp id (transport _ _ _)⟩
    · obtain ⟨h1, h2⟩ := h r hr
      have keys : r.ip = ip ∧ r.puzzleId = pid := by simpa [progressKey] using hkey
      refine ⟨h1, fun b hb => (h2 b hb).imp id (fun he => ?_)⟩
      have := transport _ _ _ he
      rw [keys.1, keys.2] at this
      exact this
    · exact ⟨fun hc => by simp [freshProgress] at hc, fun b hb => by simp [freshProgress] at hb⟩

theorem ProgressInv_recordCompletion (strict : Prop) (s : Store) (ip : String) (pid : Nat)
    (solved : Bool) (moves time : Option Nat) (now : Nat)
    (hsup : strict → ∃ m, moves = some (m + 1)) (h : ProgressInv strict s) :
    ProgressInv strict (recordCompletion s ip pid solved moves time now).2 := by
  cases hp : findPuzzle s pid with
  | none => simp only [recordCompletion, hp]; exact h
  | some puzzle =>
    cases solved with
    | false => simp only [recordCompletion, hp]; exact h
    | true =>
      have transport : ∀ (ip0 : String) (pid0 b : Nat),
          hasCompletionEvent s ip0 pid0 b = true →
          hasCompletionEvent (recordCompletion s ip pid true moves time now).2 ip0 pid0 b
            = true := by
        intro ip0 pid0 b hb
        rw [recordCompletion_of_found s ip pid moves time now puzzle hp]
        exact hasCompletionEvent_updateFirst s _ pid
          (fun p => { p with completedCount := p.completedCount + 1,
                             completedBy := p.completedBy ++
                               [{ ip := ip, moves := jsOr moves 0, completedAt := now }] })
          rfl (fun _ => rfl) (fun _ e he => List.mem_append_left _ he) ip0 pid0 b hb
      have hnew := hasCompletionEvent_new s ip pid moves time now puzzle hp
      have updated : ∀ r : UserProgress, r.ip = ip → r.puzzleId = pid →
          (∀ b, r.bestMoves = some b →
            (¬ strict ∧ b = 999) ∨ hasCompletionEvent s r.ip r.puzzleId b = true) →
          ((bestTimeUpdate time (completionUpdate puzzle.collectionId moves now r)).completed
              = true →
            (bestTimeUpdate time (completionUpdate puzzle.collectionId moves now r)).completedAt
              ≠ none ∧
            (bestTimeUpdate time (completionUpdate puzzle.collectionId moves now r)).bestMoves
              ≠ none) ∧
          (∀ b, (bestTimeUpdate time
              (completionUpdate puzzle.collectionId moves now r)).bestMoves = some b →
            (¬ strict ∧ b = 999) ∨
              hasCompletionEvent (recordCompletion s ip pid true moves time now).2
                (bestTimeUpdate time (completionUpdate puzzle.collectionId moves now r)).ip
                (bestTimeUpdate time
                  (completionUpdate puzzle.collectionId moves now r)).puzzleId b = true) := by
        intro r hip hpid h2
        rw [completedAt_bestTimeUpdate, bestMoves_bestTimeUpdate, ip_bestTimeUpdate,
          puzzleId_bestTimeUpdate]
        have hbm : (completionUpdate puzzle.collectionId moves now r).bestMoves =
            mongoMin r.bestMoves (jsOr moves 999) := rfl
        have hip' : (completionUpdate puzzle.collectionId moves now r).ip = ip := hip
        have hpid' : (completionUpdate puzzle.collectionId moves now r).puzzleId = pid := hpid
        rw [hbm, hip', hpid']
        refine ⟨fun _ => ⟨by simp [completionUpdate], by cases r.bestMoves <;> simp [mongoMin]⟩,
          ?_⟩
        intro b hb
        have hv : b = jsOr moves 999 → (¬ strict ∧ b = 999) ∨
            hasCompletionEvent (recordCompletion s ip pid true moves time now).2 ip pid b
              = true := by
          intro hbv
          cases moves with
          | none =>
            exact Or.inl ⟨fun hs => by obtain ⟨m, hm⟩ := hsup hs; simp at hm, hbv⟩
          | some m =>
            cases m with
            | zero =>
              exact Or.inl ⟨fun hs => by obtain ⟨m, hm⟩ := hsup hs; simp at hm, hbv⟩
            | succ n =>
              right
              rw [hbv]
              exact hnew
        cases hold : r.bestMoves with
        | none =>
          rw [hold] at hb
          exact hv (by simpa [mongoMin] using hb.symm)
        | some c =>
          rw [hold] at hb
          have hb' : b = min c (jsOr moves 999) := by simpa [mongoMin] using hb.symm
          rcases min_choice c (jsOr moves 999) with hc | hc
          · have hbc : b = c := hb'.trans hc
            rcases h2 c hold with hl | hr
            · exact Or.inl ⟨hl.1, hbc.trans hl.2⟩
            · right
              rw [hbc]
              have := transport _ _ _ hr
              rw [hip, hpid] at this
              exact this
          · exact hv (hb'.trans hc)
      intro r' hr'
      have hr2 := hr'
      rw [recordCompletion_of_found s ip pid moves time now puzzle hp] at hr2
      rcases mem_upsertFirst _ _ _ r' _ hr2 with hmem | ⟨r, hr, hkey, rfl⟩ | rfl
      · obtain ⟨h1, h2⟩ := h r' hmem
        exact ⟨h1, fun b hb => (h2 b hb).imp id (transport _ _ _)⟩
      · have keys : r.ip = ip ∧ r.puzzleId = pid := by simpa [progressKey] using hkey
        exact updated r keys.1 keys.2 (h r hr).2
      · exact updated _ rfl rfl (fun b hb => by simp [freshProgress] at hb)

theorem ProgressInv_applyCalls (strict : Prop) (calls : List TrackerCall) :
    ∀ s : Store, (strict → ∀ c ∈ calls, suppliesMoves c) → ProgressInv strict s →
      ProgressInv strict (applyCalls s calls) := by
  induction calls with
  | nil => intro s _ h; exact h
  | cons c cs ih =>
    intro s hsup h
    refine ih _ (fun hs c' hc' => hsup hs c' (List.mem_cons_of_mem _ hc')) ?_
    cases c with
    | attempt ip pid => exact ProgressInv_recordAttempt strict s ip pid h
    | complete ip pid solved moves time now =>
      exact ProgressInv_recordCompletion strict s ip pid solved moves time now
        (fun hs => hsup hs _ (List.mem_cons_self _ _)) h

/-- C18 (amended): in every state reached from a store without Progress Records by
recordAttempt and recordCompletion calls, every completed Progress Record has its
completion timestamp set and its best-move-count set, and that count is the sentinel
999 or the move count stored in a completion event of that identity in that puzzle's
list; when every completion call supplies a move count of at least 1 it is always the
move count of such an event. -/
theorem completed_record_invariant (s0 : Store) (calls : List TrackerCall)
    (h0 : s0.progress = []) :
    (∀ r ∈ (applyCalls s0 calls).progress, r.completed = true →
      r.completedAt ≠ none ∧
      ∃ b, r.bestMoves = some b ∧
        (b = 999 ∨ hasCompletionEvent (applyCalls s0 calls) r.ip r.puzzleId b = true)) ∧
    ((∀ c ∈ calls, suppliesMoves c) →
      ∀ r ∈ (applyCalls s0 calls).progress, r.completed = true →
        r.completedAt ≠ none ∧
        ∃ b, r.bestMoves = some b ∧
          hasCompletionEvent (applyCalls s0 calls) r.ip r.puzzleId b = true) := by
  have hinit : ∀ strict : Prop, ProgressInv strict s0 := by
    intro strict r hr
    rw [h0] at hr
    exact absurd hr (List.not_mem_nil _)
  refine ⟨?_, ?_⟩
  · intro r hr hc
    obtain ⟨h1, h2⟩ :=
      ProgressInv_applyCalls False calls s0 (fun hf => hf.elim) (hinit False) r hr
    obtain ⟨hat, hbm⟩ := h1 hc
    obtain ⟨b, hb⟩ := Option.ne_none_iff_exists'.mp hbm
    exact ⟨hat, b, hb, (h2 b hb).imp (fun h => h.2) id⟩
  · intro hsup r hr hc
    obtain ⟨h1, h2⟩ :=
      ProgressInv_applyCalls True calls s0 (fun _ => hsup) (hinit True) r hr
    obtain ⟨hat, hbm⟩ := h1 hc
    obtain ⟨b, hb⟩ := Option.ne_none_iff_exists'.mp hbm
    refine ⟨hat, b, hb, ?_⟩
    rcases h2 b hb with h | h
    · exact absurd trivial h.1
    · exact h

/-- Witness for C18: an attempt and a completion in 7 moves on puzzle 1. -/
theorem completed_record_invariant_witness :
    scenarioStore.progress = [] ∧
    ∀ r ∈ (applyCalls scenarioStore
        [TrackerCall.attempt "1.2.3.4" 1,
         TrackerCall.complete "1.2.3.4" 1 true (some 7) none 5]).progress,
      r.completed = true →
        r.completedAt ≠ none ∧
        ∃ b, r.bestMoves = some b ∧
          hasCompletionEvent (applyCalls scenarioStore
            [TrackerCall.attempt "1.2.3.4" 1,
             TrackerCall.complete "1.2.3.4" 1 true (some 7) none 5]) r.ip r.puzzleId b = true :=
  ⟨rfl, (completed_record_invariant scenarioStore
    [TrackerCall.attempt "1.2.3.4" 1, TrackerCall.complete "1.2.3.4" 1 true (some 7) none 5]
    rfl).2
    (by
      intro c hc
      simp only [List.mem_cons, List.mem_singleton, List.not_mem_nil, or_false] at hc
      rcases hc with rfl | rfl
      · exact trivial
      · exact ⟨6, rfl⟩)⟩

/-- C18 (counterexample): after one completion without moveCount the record is completed
with best-move-count 999, while the only completion event of the puzzle stores 0 moves. -/
theorem completed_record_sentinel_counterexample :
    scenarioStore.progress = [] ∧
    (findProgress (applyCalls scenarioStore
        [TrackerCall.complete "1.2.3.4" 1 true none none 5]) "1.2.3.4" 1).map
      (fun r => (r.completed, r.bestMoves)) = some (true, some 999) ∧
    (findPuzzle (applyCalls scenarioStore
        [TrackerCall.complete "1.2.3.4" 1 true none none 5]) 1).map
      (fun p => p.completedBy) =
        some [{ ip := "1.2.3.4", moves := 0, completedAt := 5 }] ∧
    hasCompletionEvent (applyCalls scenarioStore
        [TrackerCall.complete "1.2.3.4" 1 true none none 5]) "1.2.3.4" 1 999 = false := by
  decide

/-! ### Recommendation profile -/

theorem foldl_add_difficulty (l : List Puzzle) :
    ∀ init : Nat, l.foldl (fun sum p => sum + p.difficulty) init =
      init + (l.map (fun p => p.difficulty)).sum := by
  induction l with
  | nil => intro init; simp
  | cons x xs ih => intro init; simp [ih, Nat.add_assoc]

theorem avgDifficulty_of_ne_nil (s : Store) (ip : String) (h : completedPuzzles s ip ≠ []) :
    avgDifficulty s ip =
      roundDiv ((completedPuzzles s ip).map (fun p => p.difficulty)).sum
        (completedPuzzles s ip).length := by
  have hpos : 0 < (completedPuzzles s ip).length := List.length_pos.mpr h
  unfold avgDifficulty
  rw [if_pos hpos, foldl_add_difficulty, Nat.zero_add]

theorem roundDiv_bounds (a n : Nat) (hn : 0 < n) :
    2 * n * roundDiv a n ≤ 2 * a + n ∧ 2 * a + n < 2 * n * (roundDiv a n + 1) := by
  unfold roundDiv
  exact ⟨Nat.mul_div_le _ _, Nat.lt_mul_div_succ _ (by omega)⟩

theorem sum_difficulty_bounds (l : List Puzzle)
    (h : ∀ p ∈ l, 1 ≤ p.difficulty ∧ p.difficulty ≤ 10) :
    l.length ≤ (l.map (fun p => p.difficulty)).sum ∧
      (l.map (fun p => p.difficulty)).sum ≤ 10 * l.length := by
  induction l with
  | nil => simp
  | cons x xs ih =>
    have hx := h x (List.mem_cons_self _ _)
    have := ih (fun p hp => h p (List.mem_cons_of_mem _ hp))
    simp only [List.map_cons, List.sum_cons, List.length_cons]
    omega

/-- C19: every puzzle returned by recommend has difficulty within 1 of avgDifficulty or
category equal to preferredCategory; avgDifficulty is 3 when the identity has completed
no puzzle and otherwise the mean difficulty of the completed puzzles rounded to the
nearest integer, halves up (avg - 1/2 <= mean < avg + 1/2); for difficulties in 1..10
it lies in 1..10. -/
theorem recommend_matches_profile (s : Store) (ip : String) :
    (∀ r, recommend s ip = Except.ok r → ∀ p ∈ r,
      ((avgDifficulty s ip : Int) - 1 ≤ (p.difficulty : Int) ∧
        (p.difficulty : Int) ≤ (avgDifficulty s ip : Int) + 1) ∨
      p.category = preferredCategory s ip) ∧
    (completedPuzzles s ip = [] → avgDifficulty s ip = 3) ∧
    (completedPuzzles s ip ≠ [] →
      2 * (completedPuzzles s ip).length * avgDifficulty s ip ≤
        2 * ((completedPuzzles s ip).map (fun p => p.difficulty)).sum +
          (completedPuzzles s ip).length ∧
      2 * ((completedPuzzles s ip).map (fun p => p.difficulty)).sum +
          (completedPuzzles s ip).length <
        2 * (completedPuzzles s ip).length * (avgDifficulty s ip + 1)) ∧
    ((∀ p ∈ completedPuzzles s ip, 1 ≤ p.difficulty ∧ p.difficulty ≤ 10) →
      1 ≤ avgDifficulty s ip ∧ avgDifficulty s ip ≤ 10) := by
  refine ⟨?_, ?_, ?_, ?_⟩
  · intro r hr p hp
    have hq : matchesQuery s ip p = true :=
      (List.mem_filter.mp (mem_candidates_of_mem_recommend s ip r hr p hp).1).2
    simp only [matchesQuery, Bool.and_eq_true, Bool.or_eq_true, decide_eq_true_eq,
      beq_iff_eq] at hq
    exact hq.2
  · intro hnil
    simp [avgDifficulty, hnil]
  · intro hne
    rw [avgDifficulty_of_ne_nil s ip hne]
    exact roundDiv_bounds _ _ (List.length_pos.mpr hne)
  · intro hrange
    by_cases hne : completedPuzzles s ip = []
    · simp [avgDifficulty, hne]
    · have hb := roundDiv_bounds ((completedPuzzles s ip).map (fun p => p.difficulty)).sum
        (completedPuzzles s ip).length (List.length_pos.mpr hne)
      have hs := sum_difficulty_bounds _ hrange
      have hpos : 0 < (completedPuzzles s ip).length := List.length_pos.mpr hne
      rw [avgDifficulty_of_ne_nil s ip hne]
      generalize roundDiv _ _ = a at hb
      generalize ((completedPuzzles s ip).map (fun p => p.difficulty)).sum = t at hb hs
      generalize (completedPuzzles s ip).length = n at hb hs hpos
      constructor
      · by_contra hlt
        have ha : a = 0 := by omega
        subst ha
        omega
      · by_contra hgt
        have ha : 11 ≤ a := by omega
        have : 2 * n * 11 ≤ 2 * n * a := Nat.mul_le_mul_left _ ha
        omega


/-- Witness for C19: in `rankingStore`, after the visitor completed puzzle 1, every
returned puzzle has difficulty within 1 of the average or the preferred category. -/
theorem recommend_matches_profile_witness :
    recommend (recordCompletion rankingStore "1.2.3.4" 1 true (some 5) none 1).2 "1.2.3.4" =
      Except.ok ((List.range 9).map (fun i => mkPuzzle (i + 2) 1 (9 - i))) ∧
    ∀ p ∈ (List.range 9).map (fun i => mkPuzzle (i + 2) 1 (9 - i)),
      (((avgDifficulty (recordCompletion rankingStore "1.2.3.4" 1 true (some 5) none 1).2
            "1.2.3.4" : Nat) : Int) - 1 ≤ (p.difficulty : Int) ∧
        (p.difficulty : Int) ≤
          ((avgDifficulty (recordCompletion rankingStore "1.2.3.4" 1 true (some 5) none 1).2
            "1.2.3.4" : Nat) : Int) + 1) ∨
      p.category =
        preferredCategory (recordCompletion rankingStore "1.2.3.4" 1 true (some 5) none 1).2
          "1.2.3.4" :=
  ⟨rfl, (recommend_matches_profile
    (recordCompletion rankingStore "1.2.3.4" 1 true (some 5) none 1).2 "1.2.3.4").1 _ rfl⟩

/-! ### Average success rate -/

set_option maxRecDepth 100000

/-- C17 (failing input): with 40 attempts and 23 completed records the handler computes
`Math.round((23 / 40) * 100)` in double arithmetic, where the product is
57.49999999999999, and reports 57; round(100 * 23 / 40) = round(57.5) is 58. -/
theorem averageSuccessRate_below_half_up :
    completionStats (applyCalls fortyPuzzleStore fortyAttemptCalls) = some (40, 23) ∧
    averageSuccessRate (applyCalls fortyPuzzleStore fortyAttemptCalls) = 57 ∧
    averageSuccessRateSpec 23 40 = 58 := by
  decide

/-- The average success rate is 0 when the attempt counts sum to 0, the empty Progress
Store included. -/
theorem averageSuccessRate_of_no_attempts (s : Store)
    (h : (s.progress.map (fun r => r.attempts)).sum = 0) : averageSuccessRate s = 0 := by
  unfold averageSuccessRate completionStats
  cases hp : s.progress with
  | nil => simp
  | cons r rs =>
    rw [hp] at h
    simp only [Option.getD_some, h]
    simp

/-! ### Private collections -/

/-- C20 (failing input): a request whose `x-admin-key` header is "guess" while ADMIN_KEY is
"secret" does not pass the admin check, yet the three public read operations return the
private collection 2 of `rankingStore`, its puzzles, and its puzzle 0. -/
theorem private_entities_with_wrong_key :
    adminCheck (some "guess") (some "secret") = false ∧
    findCollection rankingStore 2 = some (mkCollection 2 true [0]) ∧
    getCollection rankingStore (some "guess") 2 = (Status.ok, some (mkCollection 2 true [0])) ∧
    getCollectionPuzzles rankingStore (some "guess") 2 =
      (Status.ok, some [mkPuzzle 0 2 100]) ∧
    getPuzzle rankingStore (some "guess") 0 = (Status.ok, some (mkPuzzle 0 2 100)) := by
  decide

/-- Without the header, or with an empty one, the public read operations answer 'not
found' for a private collection and for a puzzle of a private collection. -/
theorem private_hidden_without_header (s : Store) (header : Option String)
    (hh : header = none ∨ header = some "") :
    (∀ cid c, findCollection s cid = some c → c.isPrivate = true →
      getCollection s header cid = (Status.notFound, none) ∧
      getCollectionPuzzles s header cid = (Status.notFound, none)) ∧
    (∀ pid p c, findPuzzle s pid = some p → findCollection s p.collectionId = some c →
      c.isPrivate = true → getPuzzle s header pid = (Status.notFound, none)) := by
  refine ⟨?_, ?_⟩
  · intro cid c hc hpriv
    rcases hh with rfl | rfl <;> simp [getCollection, getCollectionPuzzles, hc, hpriv]
  · intro pid p c hp hc hpriv
    rcases hh with rfl | rfl <;> simp [getPuzzle, hp, hc, hpriv]

/-! ### Double arithmetic -/

theorem log2Aux_spec : ∀ (fuel n : Nat), 0 < n → n ≤ fuel →
    2 ^ log2Aux fuel n ≤ n ∧ n < 2 ^ (log2Aux fuel n + 1)
  | 0, n, h0, h1 => by omega
  | fuel + 1, n, h0, h1 => by
    by_cases h2 : 2 ≤ n
    · have ih := log2Aux_spec fuel (n / 2) (by omega) (by omega)
      simp only [log2Aux, h2, if_true]
      rw [pow_succ, pow_succ]
      rw [pow_succ] at ih
      omega
    · simp only [log2Aux, h2, if_false]
      omega

theorem log2_spec (n : Nat) (h : 0 < n) : 2 ^ log2 n ≤ n ∧ n < 2 ^ (log2 n + 1) :=
  log2Aux_spec n n h (le_refl n)

theorem roundHalfEven_bounds (N d : Nat) (hd : 0 < d) :
    2 * (roundHalfEven N d * d) ≤ 2 * N + d ∧ 2 * N ≤ 2 * (roundHalfEven N d * d) + d := by
  have h1 := Nat.div_add_mod N d
  have h2 := Nat.mod_lt N hd
  have h3 : (N / d + 1) * d = d * (N / d) + d := by ring
  have h4 : N / d * d = d * (N / d) := Nat.mul_comm _ _
  unfold roundHalfEven
  split
  · rw [h4]; omega
  · split
    · rw [h3]; omega
    · split
      · rw [h4]; omega
      · rw [h3]; omega

theorem floorLog2_le (a n : Nat) : floorLog2 a n ≤ (log2 a : Int) - (log2 n : Int) := by
  unfold floorLog2
  dsimp only
  split <;> omega

theorem round_of_scaled (a n m K D' : Nat) (hn : 0 < n) (hD : n < 2 * D')
    (hK1 : 2 * n * K ≤ 2 * a + n) (hK2 : 2 * a + n < 2 * n * (K + 1))
    (hm1 : 2 * (m * n) ≤ 2 * (a * (2 * D')) + n)
    (hm2 : 2 * (a * (2 * D')) ≤ 2 * (m * n) + n) :
    (2 * m + 2 * D') / (2 * (2 * D')) = K := by
  have hpos : 0 < 2 * (2 * D') := by omega
  have lo : n * (4 * (K * D')) ≤ n * (2 * m + 2 * D' + 1) := by nlinarith
  have hi : n * (2 * m) < n * (4 * (K * D') + 2 * D') := by nlinarith
  have lo' := Nat.le_of_mul_le_mul_left lo hn
  have hi' := Nat.lt_of_mul_lt_mul_left hi
  apply Nat.div_eq_of_lt_le
  · have : K * (2 * (2 * D')) = 4 * (K * D') := by ring
    rw [this]; omega
  · have : (K + 1) * (2 * (2 * D')) = 4 * (K * D') + 4 * D' := by ring
    rw [this]; omega

/-- For a quotient below 16 with a denominator below 2^48 the double quotient rounds to
the same integer as the exact quotient. -/
theorem mathRound_jsDiv_eq_roundDiv (a n : Nat) (hn : 0 < n) (hn' : n < 2 ^ 48)
    (ha : a < 16 * n) : mathRound (jsDiv a n) = roundDiv a n := by
  unfold jsDiv toDouble
  by_cases ha0 : a = 0
  · subst ha0
    simp only [if_true, mathRound, roundDiv]
    rw [Nat.div_eq_of_lt (by omega), Nat.div_eq_of_lt (by omega)]
  · rw [if_neg ha0]
    have hla := log2_spec a (Nat.pos_of_ne_zero ha0)
    have hln := log2_spec n hn
    have hlt : 2 ^ log2 a < 2 ^ (log2 n + 5) := by
      have : 2 ^ (log2 n + 5) = 16 * (2 * 2 ^ log2 n) := by rw [pow_add]; ring
      rw [this]
      have := hln.2
      rw [pow_succ] at this
      omega
    have hl : log2 a < log2 n + 5 := (Nat.pow_lt_pow_iff_right (by norm_num)).mp hlt
    have hfl := floorLog2_le a n
    cases he : floorLog2 a n - 52 with
    | ofNat k =>
      exfalso
      have : (0 : Int) ≤ floorLog2 a n - 52 := by rw [he]; exact Int.ofNat_nonneg k
      omega
    | negSucc k =>
      have hk : 47 ≤ k := by
        have h1 : floorLog2 a n - 52 = -((k : Int) + 1) := by rw [he]; rfl
        omega
      have hD : 2 ^ 48 ≤ 2 * 2 ^ k := by
        have : 2 ^ 47 ≤ 2 ^ k := Nat.pow_le_pow_right (by norm_num) hk
        omega
      have hb := roundHalfEven_bounds (a * (2 * 2 ^ k)) n hn
      have hK : 2 * n * roundDiv a n ≤ 2 * a + n ∧ 2 * a + n < 2 * n * (roundDiv a n + 1) :=
        ⟨Nat.mul_div_le _ _, Nat.lt_mul_div_succ _ (by omega)⟩
      simp only [mathRound, pow_succ]
      rw [Nat.mul_comm (2 ^ k) 2]
      exact round_of_scaled a n _ (roundDiv a n) (2 ^ k) hn (by omega) hK.1 hK.2 hb.1 hb.2


/-- The exact rounding `roundDiv` used by `avgDifficulty` is what the handler computes in
double arithmetic, `Math.round(sum / length)`, for fewer than 2^48 completed puzzles with
difficulties in 1..10. -/
theorem avgDifficulty_eq_double_rounding (s : Store) (ip : String)
    (hne : completedPuzzles s ip ≠ []) (hlen : (completedPuzzles s ip).length < 2 ^ 48)
    (hrange : ∀ p ∈ completedPuzzles s ip, 1 ≤ p.difficulty ∧ p.difficulty ≤ 10) :
    avgDifficulty s ip =
      mathRound (jsDiv ((completedPuzzles s ip).foldl (fun sum p => sum + p.difficulty) 0)
        (completedPuzzles s ip).length) := by
  have hpos : 0 < (completedPuzzles s ip).length := List.length_pos.mpr hne
  have hs := (sum_difficulty_bounds _ hrange).2
  rw [avgDifficulty_of_ne_nil s ip hne, foldl_add_difficulty, Nat.zero_add]
  exact (mathRound_jsDiv_eq_roundDiv _ _ hpos hlen (by omega)).symm

end GoHub
